import Mathlib

/-! Ballot boxes and voting results of the sebak consensus core.

A shallow embedding of `lib/ballot.go` (the ballot record, `BallotBox`, `BallotBoxes`)
together with the voting tally (`VotingResult`, the threshold policy) that the ballot
boxes drive.

Conventions of the embedding:

* Go `string` values are Lean `String`s.  Go compares strings byte by byte; on valid
  UTF-8 this is the order of the code points, which `stringLess` computes.
* A Go `map` is an association list without duplicate keys (`AList`).  Assignment
  `m[k] = v` is `AList.insert`; mutation through a stored pointer is `AList.replace`.
* A method with a pointer receiver returns the new value of its receiver.
* A run-time panic (nil dereference, slice bounds out of range) is `none`.
* Calls are sequential: the locks (`util.SafeLock`) are not modelled.
-/

namespace Sebak

/-! ## Pieces of the Go runtime and standard library -/

/-- Lexicographic "less than" on two character sequences, comparing code points. -/
def charsLess : List Char → List Char → Bool
  | [], [] => false
  | [], _ :: _ => true
  | _ :: _, [] => false
  | a :: as, b :: bs => if a = b then charsLess as bs else decide (a.toNat < b.toNat)

/-- Go's `a < b` on strings. -/
def stringLess (a b : String) : Bool := charsLess a.data b.data

/-- Go's `sort.Strings`: the ascending rearrangement of the slice.  The order is total and
equal keys are identical strings, so the result does not depend on the sorting algorithm. -/
def sortStrings (a : List String) : List String :=
  a.insertionSort (fun x y => stringLess y x = false)

/-- Loop of Go's `sort.Search`:
`for i < j { h := int(uint(i+j) >> 1); if !f(h) { i = h + 1 } else { j = h } }; return i`.
The first argument bounds the number of iterations; `j - i` iterations always suffice. -/
def searchLoop (f : Nat → Bool) : Nat → Nat → Nat → Nat
  | 0, i, _ => i
  | fuel + 1, i, j =>
    if i < j then
      if !f ((i + j) / 2) then searchLoop f fuel ((i + j) / 2 + 1) j
      else searchLoop f fuel i ((i + j) / 2)
    else i

/-- Go's `sort.Search(n, f)`. -/
def Search (n : Nat) (f : Nat → Bool) : Nat := searchLoop f n 0 n

/-- Go's `sort.SearchStrings(a, x)`, which is `Search(len(a), func(i) { return a[i] >= x })`. -/
def SearchStrings (a : List String) (x : String) : Nat :=
  Search a.length (fun i => !stringLess (a.getD i "") x)

/-- Modelled from the spec: `util.InStringArray` of `lib/util`, which is not part of the
sources at hand; the box "uses an ordered hash list with linear search". -/
def InStringArray (a : List String) (s : String) : Bool := a.contains s

/-! ## Ballots -/

/-- The consensus phase of a ballot; `NONE` is the sentinel used in evaluation queries. -/
inductive BallotState
  | NONE
  | INIT
  | SIGN
  | ACCEPT
  | ALLCONFIRM
deriving DecidableEq, Repr

/-- The verdict slot of a ballot. -/
inductive VotingHole
  | NOTYET
  | YES
  | NO
  | EXPIRED
deriving DecidableEq, Repr

/-- The error values of `sebakerror` that the ballot boxes and the tally return. -/
inductive Error
  | ErrorHashDoesNotMatch
  | ErrorVotingResultAlreadyExists
  | ErrorVotingResultNotFound
  | ErrorSignatureVerificationFailed
  | ErrorBallotEmptyNodeKey
  | ErrorBallotEmptyHashMatch
  | ErrorBallotNoVoting
  | ErrorBallotHasMessage
  | ErrorBallotInvalidState
deriving DecidableEq, Repr

/-- A payload (`util.Message`), seen through its type tag, its hash and its encoded form. -/
structure Message where
  T : String
  Hash : String
  Encoded : String
deriving DecidableEq, Repr

structure BallotData where
  Data : Option Message
deriving DecidableEq, Repr

structure BallotHeader where
  Hash : String
  Signature : String
deriving DecidableEq, Repr

structure BallotBody where
  Hash : String
  NodeKey : String
  State : BallotState
  VotingHole : VotingHole
  Reason : String
deriving DecidableEq, Repr

structure Ballot where
  T : String
  H : BallotHeader
  B : BallotBody
  D : BallotData
deriving DecidableEq, Repr

def Ballot.GetHash (b : Ballot) : String := b.H.Hash

def Ballot.MessageHash (b : Ballot) : String := b.B.Hash

def Ballot.State (b : Ballot) : BallotState := b.B.State

/-! ## Voting results and the threshold policy -/

/-- The votes of one state: validator address to vote. -/
abbrev Votes := AList (fun _ : String => VotingHole)

/-- Modelled from the spec: the `VotingResult` record of `lib/voting.go`, which is not part of
the sources at hand: "`id`, `message_hash`, `state`, `voted[state]`: a mapping from state to a
mapping from `node_key` to `voting_hole`". -/
structure VotingResult where
  ID : String
  MessageHash : String
  State : BallotState
  Voted : AList (fun _ : BallotState => Votes)
deriving DecidableEq

/-- Modelled from the spec: the position of a state in "the state order
`INIT < SIGN < ACCEPT < ALL-CONFIRM`"; the sentinel `NONE` is placed below all of them. -/
def BallotState.rank : BallotState → Nat
  | .NONE => 0
  | .INIT => 1
  | .SIGN => 2
  | .ACCEPT => 3
  | .ALLCONFIRM => 4

/-- Modelled from the spec: `max(self.state, ballot.state)` in the state order. -/
def BallotState.max (a b : BallotState) : BallotState :=
  if a.rank < b.rank then b else a

/-- Modelled from the spec: `V = voted[state]` (absent ⇒ empty). -/
def VotingResult.votes (r : VotingResult) (state : BallotState) : Votes :=
  (r.Voted.lookup state).getD ∅

/-- Modelled from the spec: `VotingResult.Add` of `lib/voting.go`, not part of the sources at
hand: "Fails with `HashDoesNotMatch` if `ballot.message_hash != self.message_hash`. Otherwise,
records `voted[ballot.state][ballot.node_key] = ballot.voting_hole`, and raises
`self.state = max(self.state, ballot.state)`".  Returns the receiver after the call and the
error. -/
def VotingResult.Add (r : VotingResult) (ballot : Ballot) : VotingResult × Option Error :=
  if ballot.MessageHash ≠ r.MessageHash then (r, some .ErrorHashDoesNotMatch)
  else
    ({ r with
        State := r.State.max ballot.State
        Voted := r.Voted.insert ballot.State
          ((r.votes ballot.State).insert ballot.B.NodeKey ballot.B.VotingHole) }, none)

/-- Modelled from the spec: `NewVotingResult` of `lib/voting.go`, not part of the sources at
hand: "Create a new `VotingResult` from the ballot", with "`id`: a freshly generated unique
identifier" (supplied by the caller of the model), `message_hash` the payload under vote,
`state` the highest state observed and the ballot's own vote recorded.  The spec lists no
failure for it. -/
def NewVotingResult (ballot : Ballot) (id : String) : Except Error VotingResult :=
  .ok { ID := id
        MessageHash := ballot.MessageHash
        State := ballot.State
        Voted := (∅ : AList (fun _ : BallotState => Votes)).insert ballot.State
          ((∅ : Votes).insert ballot.B.NodeKey ballot.B.VotingHole) }

/-- Modelled from the spec: `IsVoted`, "true iff `voted[ballot.state]` contains
`ballot.node_key`". -/
def VotingResult.IsVoted (r : VotingResult) (ballot : Ballot) : Bool :=
  ((r.votes ballot.State).lookup ballot.B.NodeKey).isSome

/-- Modelled from the spec: the default threshold policy, which "holds per-state integer
percentages `{INIT, SIGN, ACCEPT}` and a validator count". -/
structure DefaultVotingThresholdPolicy where
  init : Nat
  sign : Nat
  accept : Nat
  validators : Nat
deriving DecidableEq, Repr

/-- Modelled from the spec: `NewDefaultVotingThresholdPolicy(init, sign, accept)` as the tests
call it; the validator count is set afterwards. -/
def NewDefaultVotingThresholdPolicy (init sign accept : Nat) : DefaultVotingThresholdPolicy :=
  { init := init, sign := sign, accept := accept, validators := 0 }

/-- Modelled from the spec: `set_validators(int)`. -/
def DefaultVotingThresholdPolicy.SetValidators (p : DefaultVotingThresholdPolicy) (n : Nat) :
    DefaultVotingThresholdPolicy :=
  { p with validators := n }

/-- Modelled from the spec: `validators()`. -/
def DefaultVotingThresholdPolicy.Validators (p : DefaultVotingThresholdPolicy) : Nat :=
  p.validators

/-- Modelled from the spec: the percentage held for a state; the spec holds one for `INIT`,
`SIGN` and `ACCEPT` only, the other states have none and get 0. -/
def DefaultVotingThresholdPolicy.percentage (p : DefaultVotingThresholdPolicy) :
    BallotState → Nat
  | .INIT => p.init
  | .SIGN => p.sign
  | .ACCEPT => p.accept
  | _ => 0

/-- Modelled from the spec: "`quorum(state) = ceil(percentage * validators / 100)`", in exact
integer arithmetic. -/
def DefaultVotingThresholdPolicy.quorum (p : DefaultVotingThresholdPolicy)
    (state : BallotState) : Nat :=
  (p.percentage state * p.validators + 99) / 100

/-- Modelled from the spec: `|{v : V[v] == hole}|`. -/
def Votes.count (v : Votes) (hole : VotingHole) : Nat :=
  (v.entries.filter (fun e => e.2 = hole)).length

/-- Modelled from the spec: `|V|`. -/
def Votes.size (v : Votes) : Nat := v.entries.length

/-- Modelled from the spec: `CheckThreshold(state, policy) → (outcome, ended)` of
`lib/voting.go`, not part of the sources at hand, step by step as §4.4 gives it. -/
def VotingResult.CheckThreshold (r : VotingResult) (state : BallotState)
    (policy : DefaultVotingThresholdPolicy) : VotingHole × Bool :=
  let q := policy.quorum state
  let V := r.votes state
  let yes := V.count .YES
  let no := V.count .NO
  let exp := V.count .EXPIRED
  if state = .NONE then (.NOTYET, false)
  else
    let ended := decide (q ≤ yes) || decide (q ≤ no + exp) || decide (V.size = policy.Validators)
    let outcome :=
      if q ≤ yes then VotingHole.YES else if q ≤ no + exp then VotingHole.NO else VotingHole.NOTYET
    (outcome, ended)

/-- Modelled from the spec: `MakeResult(policy) → (outcome, decided_state, ended)` of
`lib/voting.go`, not part of the sources at hand: "Evaluate `CheckThreshold` for states in the
order `ACCEPT, SIGN, INIT`; return the first `ended=true`. If none, return
`(NOTYET, INIT, false)`". -/
def VotingResult.MakeResult (r : VotingResult) (policy : DefaultVotingThresholdPolicy) :
    VotingHole × BallotState × Bool :=
  match [BallotState.ACCEPT, BallotState.SIGN, BallotState.INIT].find?
      (fun s => (r.CheckThreshold s policy).2) with
  | some s => ((r.CheckThreshold s policy).1, s, true)
  | none => (.NOTYET, .INIT, false)

/-! ## Ballot boxes -/

structure BallotBox where
  Hashes : List String
deriving DecidableEq, Repr

def NewBallotBox : BallotBox := { Hashes := [] }

def BallotBox.Len (b : BallotBox) : Nat := b.Hashes.length

def BallotBox.HasMessageByString (b : BallotBox) (hash : String) : Bool :=
  InStringArray b.Hashes hash

/-- `BallotBox.AddVotingResult`: the box after the call and the error. -/
def BallotBox.AddVotingResult (b : BallotBox) (vr : VotingResult) : BallotBox × Option Error :=
  if b.HasMessageByString vr.MessageHash then (b, some .ErrorVotingResultAlreadyExists)
  else ({ Hashes := sortStrings (b.Hashes ++ [vr.MessageHash]) }, none)

/-- `BallotBox.RemoveVotingResult`: the box after the call and the error; `none` when the
slice expression `b.Hashes[i+1:]` is out of range, which panics. -/
def BallotBox.RemoveVotingResult (b : BallotBox) (vr : VotingResult) :
    Option (BallotBox × Option Error) :=
  if !b.HasMessageByString vr.MessageHash then some (b, some .ErrorVotingResultNotFound)
  else
    let i := SearchStrings b.Hashes vr.MessageHash
    if i + 1 ≤ b.Hashes.length then
      some ({ Hashes := sortStrings (b.Hashes.take i ++ b.Hashes.drop (i + 1)) }, none)
    else none

structure BallotBoxes where
  Results : AList (fun _ : String => VotingResult)
  WaitingBox : BallotBox
  VotingBox : BallotBox
  ReservedBox : BallotBox
deriving DecidableEq

def NewBallotBoxes : BallotBoxes :=
  { Results := ∅
    WaitingBox := NewBallotBox
    VotingBox := NewBallotBox
    ReservedBox := NewBallotBox }

def BallotBoxes.Len (b : BallotBoxes) : Nat := b.Results.entries.length

def BallotBoxes.HasMessageByString (b : BallotBoxes) (hash : String) : Bool :=
  (b.Results.lookup hash).isSome

def BallotBoxes.VotingResult (b : BallotBoxes) (ballot : Ballot) : Option VotingResult :=
  if !b.HasMessageByString ballot.MessageHash then none
  else b.Results.lookup ballot.MessageHash

/-- The `*BallotBox` argument of `BallotBoxes.AddVotingResult`: one of the three boxes of the
structure itself, or a box that does not belong to it. -/
inductive BoxRef
  | Waiting
  | Voting
  | Reserved
  | Foreign
deriving DecidableEq, Repr

/-- `BallotBoxes.AddVotingResult(vr, bb)`: stores `vr` under its hash, adds the hash to `bb`
and drops the error of the box; the returned error is always nil. -/
def BallotBoxes.AddVotingResult (b : BallotBoxes) (vr : Sebak.VotingResult) (bb : BoxRef) :
    BallotBoxes × Option Error :=
  let b1 := { b with Results := b.Results.insert vr.MessageHash vr }
  match bb with
  | .Waiting => ({ b1 with WaitingBox := (b1.WaitingBox.AddVotingResult vr).1 }, none)
  | .Voting => ({ b1 with VotingBox := (b1.VotingBox.AddVotingResult vr).1 }, none)
  | .Reserved => ({ b1 with ReservedBox := (b1.ReservedBox.AddVotingResult vr).1 }, none)
  | .Foreign => (b1, none)

/-- `BallotBoxes.AddBallot(ballot)`: the structure after the call, `isNew` and the error;
`id` is the identifier `NewVotingResult` draws for a first-seen payload.  `none` is a panic. -/
def BallotBoxes.AddBallot (b : BallotBoxes) (ballot : Ballot) (id : String) :
    Option (BallotBoxes × Bool × Option Error) :=
  let isNew := !b.HasMessageByString ballot.MessageHash
  if !isNew then
    match b.VotingResult ballot with
    | none => none
    | some vr =>
      match vr.Add ballot with
      | (_, some err) => some (b, isNew, some err)
      | (vr1, none) =>
        let b1 := { b with Results := b.Results.replace ballot.MessageHash vr1 }
        if b1.ReservedBox.HasMessageByString ballot.MessageHash then
          match b1.ReservedBox.RemoveVotingResult vr1 with
          | none => none
          | some (reserved, _) =>
            some ({ b1 with
                    ReservedBox := reserved
                    VotingBox := (b1.VotingBox.AddVotingResult vr1).1 }, isNew, none)
        else some (b1, isNew, none)
  else
    match NewVotingResult ballot id with
    | .error err => some (b, isNew, some err)
    | .ok vr =>
      if ballot.State = .INIT then
        let r := b.AddVotingResult vr .Waiting
        some (r.1, isNew, r.2)
      else
        let r := b.AddVotingResult vr .Voting
        some (r.1, isNew, r.2)

/-! ## Histories of a `BallotBoxes` -/

/-- A call of one of the two public mutators of `BallotBoxes`. -/
inductive Op
  | addBallot (ballot : Ballot) (id : String)
  | addVotingResult (vr : VotingResult) (bb : BoxRef)

/-- The structure after one call; `none` when the call panics. -/
def BallotBoxes.step (b : BallotBoxes) : Op → Option BallotBoxes
  | .addBallot ballot id => (b.AddBallot ballot id).map (fun r => r.1)
  | .addVotingResult vr bb => some (b.AddVotingResult vr bb).1

/-- The call hands `AddVotingResult` one of the three boxes of the structure itself. -/
def Op.ownBox : Op → Bool
  | .addBallot _ _ => true
  | .addVotingResult _ bb => decide (bb ≠ .Foreign)

/-- The states reachable from `NewBallotBoxes` by calls that each satisfy `ok` in the state
they are made in. -/
inductive ReachableBy (ok : BallotBoxes → Op → Prop) : BallotBoxes → Prop
  | init : ReachableBy ok NewBallotBoxes
  | step {B B1 : BallotBoxes} (op : Op) :
      ReachableBy ok B → ok B op → B.step op = some B1 → ReachableBy ok B1

/-- Reachable through `AddBallot` and `AddVotingResult`, with any box argument. -/
def Reachable (B : BallotBoxes) : Prop := ReachableBy (fun _ _ => True) B

/-- Reachable through `AddBallot` and `AddVotingResult` called with one of the structure's own
three boxes. -/
def ReachableOwn (B : BallotBoxes) : Prop := ReachableBy (fun _ op => op.ownBox = true) B

/-! ## Properties of a `BallotBoxes` -/

/-- Every hash in one of the three boxes is a key of `Results`. -/
def BallotBoxes.Owned (B : BallotBoxes) : Prop :=
  ∀ k, k ∈ B.WaitingBox.Hashes ∨ k ∈ B.VotingBox.Hashes ∨ k ∈ B.ReservedBox.Hashes →
    B.HasMessageByString k = true

/-- `WaitingBox` and `VotingBox` have no hash in common, and `ReservedBox` has no hash in
common with either of them. -/
def BallotBoxes.Apart (B : BallotBoxes) : Prop :=
  (∀ k, k ∈ B.WaitingBox.Hashes → k ∉ B.VotingBox.Hashes) ∧
  (∀ k, k ∈ B.ReservedBox.Hashes → k ∉ B.WaitingBox.Hashes) ∧
  (∀ k, k ∈ B.ReservedBox.Hashes → k ∉ B.VotingBox.Hashes)

/-- The hash list of each of the three boxes is strictly ascending. -/
def BallotBoxes.Ascending (B : BallotBoxes) : Prop :=
  B.WaitingBox.Hashes.Sorted (· < ·) ∧ B.VotingBox.Hashes.Sorted (· < ·) ∧
  B.ReservedBox.Hashes.Sorted (· < ·)

/-- Every key of `Results` maps to a voting result that carries the key as its hash. -/
def BallotBoxes.KeyedByHash (B : BallotBoxes) : Prop :=
  ∀ k vr, B.Results.lookup k = some vr → vr.MessageHash = k

/-- The call does not put a hash into a box while one of the other two boxes of the structure
holds it: an `AddVotingResult` is made for a hash that is in neither of the other two boxes. -/
def Op.apart (B : BallotBoxes) : Op → Bool
  | .addBallot _ _ => true
  | .addVotingResult vr .Waiting =>
    !B.VotingBox.HasMessageByString vr.MessageHash &&
      !B.ReservedBox.HasMessageByString vr.MessageHash
  | .addVotingResult vr .Voting =>
    !B.WaitingBox.HasMessageByString vr.MessageHash &&
      !B.ReservedBox.HasMessageByString vr.MessageHash
  | .addVotingResult vr .Reserved =>
    !B.WaitingBox.HasMessageByString vr.MessageHash &&
      !B.VotingBox.HasMessageByString vr.MessageHash
  | .addVotingResult _ .Foreign => true

/-- Reachable through `AddBallot` and `AddVotingResult` called with one of the structure's own
three boxes for a hash that neither of the other two boxes holds. -/
def ReachableApart (B : BallotBoxes) : Prop :=
  ReachableBy (fun B0 op => op.ownBox = true ∧ op.apart B0 = true) B

/-! ## Histories of a single box -/

/-- A call of one of the two mutators of a `BallotBox`. -/
inductive BoxOp
  | add (vr : VotingResult)
  | remove (vr : VotingResult)

/-- The box after one call, whether the call returns an error or not; `none` when it
panics. -/
def BallotBox.step (b : BallotBox) : BoxOp → Option BallotBox
  | .add vr => some (b.AddVotingResult vr).1
  | .remove vr => (b.RemoveVotingResult vr).map (fun r => r.1)

/-- The boxes reachable from `NewBallotBox` by `AddVotingResult` and `RemoveVotingResult`. -/
inductive BallotBox.Reachable : BallotBox → Prop
  | init : BallotBox.Reachable NewBallotBox
  | step {b b1 : BallotBox} (op : BoxOp) :
      BallotBox.Reachable b → b.step op = some b1 → BallotBox.Reachable b1

/-! ## Sequences of `Add` calls -/

/-- The voting result after `Add` was called with every ballot of `bs` in turn, the errors
dropped as the tests drop them. -/
def VotingResult.AddAll (r : VotingResult) (bs : List Ballot) : VotingResult :=
  bs.foldl (fun acc b => (acc.Add b).1) r

/-! ## The ballot record: hashing, signing, encoding -/

/-- A byte slice. -/
abbrev Bytes := List UInt8

/-- Go's `[]byte(s)`. -/
def bytesOfString (s : String) : Bytes := s.toUTF8.data.toList

/-- A full key pair (`keypair.Full` of the stellar library), seen through the two methods
the ballot code calls; the error result of `Sign` is dropped by the caller. -/
structure Keypair where
  Address : String
  Sign : Bytes → Bytes

/-- The `BallotData` of a ballot that `json.Unmarshal` has filled: `Data` holds the generic
value decoded from the key `message`, given by the JSON text that `json.Marshal` writes for
it; `none` is nil. -/
structure DecodedData where
  Data : Option String
deriving DecidableEq, Repr

/-- A ballot as `json.Unmarshal` fills it: `T`, `H` and `B` as in `Ballot`, the data not yet
a message. -/
structure DecodedBallot where
  T : String
  H : BallotHeader
  B : BallotBody
  D : DecodedData
deriving DecidableEq, Repr

/-- The functions of other packages that the ballot code calls, taken as parameters:
`util.MustMakeObjectHash` on a ballot body, `base58.Encode` and `base58.Decode`,
`keypair.Parse` (the parsed key is given by what it accepts as a signature), `json.Marshal`
on a ballot, `json.Unmarshal` into a ballot, and `NewTransactionFromJSON` with its two
results, the transaction and the error. -/
structure Lib where
  MustMakeObjectHash : BallotBody → Bytes
  base58Encode : Bytes → String
  base58Decode : String → Bytes
  keypairParse : String → Option (Bytes → Bytes → Bool)
  jsonMarshal : Ballot → Except String Bytes
  jsonUnmarshal : Bytes → Except String DecodedBallot
  NewTransactionFromJSON : Bytes → Message × Option String

/-- Modelled from the spec: `InitialState`, declared outside the sources at hand;
`new_from_payload` "builds a ballot with `state=INIT`". -/
def InitialState : BallotState := .INIT

def BallotData.IsEmpty (bd : BallotData) : Bool := bd.Data.isNone

def Ballot.Data (b : Ballot) : BallotData := b.D

def BallotBody.MakeHash (lib : Lib) (bb : BallotBody) : Bytes := lib.MustMakeObjectHash bb

/-- `Ballot.UpdateHash`: the ballot after the call. -/
def Ballot.UpdateHash (lib : Lib) (b : Ballot) : Ballot :=
  { b with H := { b.H with Hash := lib.base58Encode (b.B.MakeHash lib) } }

/-- `Ballot.Sign`: the ballot after the call. -/
def Ballot.Sign (lib : Lib) (b : Ballot) (kp : Keypair) : Ballot :=
  let b1 : Ballot :=
    if kp.Address ≠ b.B.NodeKey then { b with B := { b.B with NodeKey := kp.Address } } else b
  let b2 := b1.UpdateHash lib
  let signature := kp.Sign (bytesOfString b2.GetHash)
  { b2 with H := { b2.H with Signature := lib.base58Encode signature } }

/-- `NewBallotFromMessage`: the ballot and the error, which is always nil. -/
def NewBallotFromMessage (lib : Lib) (nodeKey : String) (m : Message) : Ballot × Option Error :=
  let body : BallotBody :=
    { Hash := m.Hash
      NodeKey := nodeKey
      State := InitialState
      VotingHole := .NOTYET
      Reason := "" }
  let data : BallotData := { Data := some m }
  ({ T := "ballot"
     H := { Hash := lib.base58Encode (body.MakeHash lib), Signature := "" }
     B := body
     D := data }, none)

/-- `Ballot.Serialize`: the result of `json.Marshal`, on the ballot itself at INIT and on the
local copy `newBallot` with `D.Data = nil` otherwise.  The receiver is a value, the caller's
ballot is not touched. -/
def Ballot.Serialize (lib : Lib) (b : Ballot) : Except String Bytes :=
  if b.State = .INIT then lib.jsonMarshal b
  else lib.jsonMarshal { b with D := { b.D with Data := none } }

/-! ## The ballot record: copying, setters, verification, decoding -/

def Ballot.Clone (b : Ballot) : Ballot :=
  let body : BallotBody :=
    { Hash := b.B.Hash
      NodeKey := b.B.NodeKey
      State := b.B.State
      VotingHole := b.B.VotingHole
      Reason := "" }
  { T := b.T
    H := { Hash := b.H.Hash, Signature := b.H.Signature }
    B := body
    D := b.D }

/-- `Ballot.SetState`: the ballot after the call. -/
def Ballot.SetState (b : Ballot) (state : BallotState) : Ballot :=
  { b with B := { b.B with State := state } }

/-- `Ballot.Vote`: the ballot after the call. -/
def Ballot.Vote (b : Ballot) (v : VotingHole) : Ballot :=
  { b with B := { b.B with VotingHole := v } }

/-- `Ballot.SetMessage`: the ballot after the call. -/
def Ballot.SetMessage (b : Ballot) (m : Message) : Ballot :=
  { b with D := { b.D with Data := some m } }

/-- `Ballot.VerifySignature`: the error; `none` when `keypair.MustParse` panics because the
address does not parse. -/
def Ballot.VerifySignature (lib : Lib) (b : Ballot) : Option (Option Error) :=
  match lib.keypairParse b.B.NodeKey with
  | none => none
  | some accepts =>
    if accepts (bytesOfString b.GetHash) (lib.base58Decode b.H.Signature) then some none
    else some (some .ErrorSignatureVerificationFailed)

/-- `json.Marshal(bd)` for a `BallotData` whose `Data` encodes as `text`: the record with the
one key `message`, the tag of the field `Data`. -/
def marshalBallotData (text : String) : Bytes :=
  bytesOfString ("\x7b\"message\":" ++ text ++ "\x7d")

def DecodedData.IsEmpty (bd : DecodedData) : Bool := bd.Data.isNone

/-- `BallotData.Serialize` on the data of a decoded ballot: no bytes for nil, else
`json.Marshal(bd)`. -/
def DecodedData.Serialize (bd : DecodedData) : Bytes × Option String :=
  match bd.Data with
  | none => ([], none)
  | some text => (marshalBallotData text, none)

/-- What `json.Unmarshal` fills in from the encoding of `b` when decoding inverts encoding:
the fields of `b`, and for the payload the generic value of its encoded form. -/
def Ballot.decoded (b : Ballot) : DecodedBallot :=
  { T := b.T, H := b.H, B := b.B, D := { Data := b.D.Data.map (fun m => m.Encoded) } }

/-- `NewBallotFromJSON`: the ballot, or the error of `json.Unmarshal`.  The errors of
`BallotData.Serialize` and `NewTransactionFromJSON` are dropped as in the source. -/
def NewBallotFromJSON (lib : Lib) (b : Bytes) : Except String Ballot :=
  match lib.jsonUnmarshal b with
  | .error err => .error err
  | .ok ballot =>
    if ballot.D.IsEmpty then
      .ok { T := ballot.T, H := ballot.H, B := ballot.B, D := { Data := none } }
    else
      let a := ballot.D.Serialize.1
      let tx := (lib.NewTransactionFromJSON a).1
      .ok (Ballot.SetMessage { T := ballot.T, H := ballot.H, B := ballot.B, D := { Data := none } } tx)

/-! ## Well-formedness -/

/-- The structure after `AddBallot` was called with every ballot of `calls` in turn, each
with the identifier a new voting result would get; `none` when a call panics. -/
def BallotBoxes.AddBallots (b : BallotBoxes) : List (Ballot × String) → Option BallotBoxes
  | [] => some b
  | c :: cs =>
    match b.AddBallot c.1 c.2 with
    | none => none
    | some r => r.1.AddBallots cs

/-- The state of the first ballot among `calls` that carries the hash `h`. -/
def firstState (calls : List (Ballot × String)) (h : String) : Option BallotState :=
  (calls.find? (fun c => decide (c.1.MessageHash = h))).map (fun c => c.1.State)

/-- What a run of `AddBallot` calls leaves behind: `ReservedBox` is empty, the keys of
`Results` are the hashes of the ballots seen, `WaitingBox` holds the hashes whose first
ballot had state INIT and `VotingBox` the hashes whose first ballot had another state. -/
def BallotBoxes.Routed (B : BallotBoxes) (calls : List (Ballot × String)) : Prop :=
  B.ReservedBox.Hashes = [] ∧
  (∀ h, B.HasMessageByString h = true ↔ (firstState calls h).isSome = true) ∧
  (∀ h, h ∈ B.WaitingBox.Hashes ↔ firstState calls h = some .INIT) ∧
  (∀ h, h ∈ B.VotingBox.Hashes ↔ ∃ s, firstState calls h = some s ∧ s ≠ .INIT)

/-! ## Fixtures -/



/-- A ballot as the tests build it: validator `node` votes `vote` on payload `hash` in `state`. -/
def sampleBallot (node hash : String) (state : BallotState) (vote : VotingHole) : Ballot :=
  { T := "ballot"
    H := { Hash := "", Signature := "" }
    B := { Hash := hash, NodeKey := node, State := state, VotingHole := vote, Reason := "" }
    D := { Data := none } }

/-- A voting result for payload `hash` that holds no vote yet. -/
def sampleResult (hash : String) : VotingResult :=
  { ID := "id", MessageHash := hash, State := .INIT, Voted := ∅ }

/-- A structure whose only key maps to a voting result for another payload. -/
def mismatchedBoxes : BallotBoxes :=
  { NewBallotBoxes with
    Results := (∅ : AList (fun _ : String => VotingResult)).insert "h1" (sampleResult "h2") }

/-- The structure after `AddVotingResult` was called for one voting result with `WaitingBox`
and then with `VotingBox`. -/
def twiceAdded : BallotBoxes :=
  ((NewBallotBoxes.AddVotingResult (sampleResult "h1") .Waiting).1.AddVotingResult
    (sampleResult "h1") .Voting).1

/-- The voting result the tests build: `NewVotingResult(ballots[0])`, then `Add` of every
further ballot. -/
def tally (first : Ballot) (rest : List Ballot) : VotingResult :=
  match NewVotingResult first "id" with
  | .ok r => rest.foldl (fun acc b => (acc.Add b).1) r
  | .error _ => sampleResult first.MessageHash

/-- The YES ballots of the validators `nodes` on payload `h1` in `state`. -/
def yesBallots (nodes : List String) (state : BallotState) : List Ballot :=
  nodes.map (fun n => sampleBallot n "h1" state .YES)

/-- Five validators vote YES at INIT, as `makeBallotsWithSameMessageHash(5)` has them. -/
def fiveInit : VotingResult :=
  tally (sampleBallot "n1" "h1" .INIT .YES) (yesBallots ["n2", "n3", "n4", "n5"] .INIT)

/-- Four validators vote YES at INIT. -/
def fourInit : VotingResult :=
  tally (sampleBallot "n1" "h1" .INIT .YES) (yesBallots ["n2", "n3", "n4"] .INIT)

/-- Five validators vote YES at INIT and then at ACCEPT, as
`TestVotingResultGetResultHigherStateMustBePicked` has them. -/
def fiveInitAccept : VotingResult :=
  tally (sampleBallot "n1" "h1" .INIT .YES)
    (yesBallots ["n2", "n3", "n4", "n5"] .INIT ++
      yesBallots ["n1", "n2", "n3", "n4", "n5"] .ACCEPT)

/-- The structure after `AddVotingResult` put one payload into `ReservedBox` and another one
into `WaitingBox`. -/
def twoPayloads : BallotBoxes :=
  ((NewBallotBoxes.AddVotingResult (sampleResult "h1") .Reserved).1.AddVotingResult
    (sampleResult "h2") .Waiting).1

/-- A box that holds four hashes. -/
def fourHashes : BallotBox := { Hashes := ["a", "ab", "b", "c"] }

/-- One validator votes YES and then NO on the same payload at INIT. -/
def replayed : VotingResult :=
  tally (sampleBallot "n1" "h1" .INIT .YES) [sampleBallot "n1" "h1" .INIT .NO]

/-- Two validators vote NO at INIT. -/
def twoNo : VotingResult :=
  tally (sampleBallot "n1" "h1" .INIT .NO) [sampleBallot "n2" "h1" .INIT .NO]

/-- A threshold of 50% at every state. -/
def halfPolicy (validators : Nat) : DefaultVotingThresholdPolicy :=
  (NewDefaultVotingThresholdPolicy 50 50 50).SetValidators validators

/-- One byte per character, for the example library. -/
def lowBytes (s : String) : Bytes := s.data.map (fun c => c.toNat.toUInt8)

/-- A transaction with hash "h1", as a payload. -/
def sampleTx : Message := { T := "transaction", Hash := "h1", Encoded := "tx-h1" }

/-- The transaction a decoder returns when it finds none of a transaction's fields. -/
def zeroTx : Message := { T := "", Hash := "", Encoded := "" }

/-- A library for the examples.  The object hash of a body is the text of its fields; base58
writes one character per byte; an address parses unless it is empty and the key accepts the
message itself as its signature; the JSON codec knows the INIT ballot of `sampleTx` by node
"n1", and the transaction decoder reads `sampleTx` from its own encoding and the zero
transaction from anything else. -/
def sampleLib : Lib :=
  { MustMakeObjectHash := fun bb => lowBytes (bb.Hash ++ "/" ++ bb.NodeKey ++ "/" ++ bb.Reason)
    base58Encode := fun bs => String.mk (bs.map (fun x => Char.ofNat x.toNat))
    base58Decode := fun s => s.data.map (fun c => c.toNat.toUInt8)
    keypairParse := fun a => if a = "" then none else some (fun msg sig => decide (sig = msg))
    jsonMarshal := fun b => .ok (lowBytes (b.T ++ "/" ++ b.B.Hash))
    jsonUnmarshal := fun _ =>
      .ok { T := "ballot"
            H := { Hash := "", Signature := "" }
            B := { Hash := "h1", NodeKey := "n1", State := .INIT, VotingHole := .YES,
                   Reason := "" }
            D := { Data := some "tx-h1" } }
    NewTransactionFromJSON := fun bytes =>
      if bytes = bytesOfString "tx-h1" then (sampleTx, none)
      else (zeroTx, some "not a transaction") }

/-- A key pair for the examples: the signature of a message is the message. -/
def sampleKeypair : Keypair := { Address := "GA", Sign := fun msg => msg }

/-- The INIT ballot of node "n1" that carries `sampleTx`. -/
def sampleInitBallot : Ballot :=
  { T := "ballot"
    H := { Hash := "", Signature := "" }
    B := { Hash := "h1", NodeKey := "n1", State := .INIT, VotingHole := .YES, Reason := "" }
    D := { Data := some sampleTx } }

/-- A ballot with a reason, its header hash computed by `sampleLib`. -/
def reasonedBallot : Ballot :=
  Ballot.UpdateHash sampleLib
    { T := "ballot"
      H := { Hash := "", Signature := "" }
      B := { Hash := "h1", NodeKey := "n1", State := .SIGN, VotingHole := .NO,
             Reason := "expired" }
      D := { Data := none } }

/-- Three `AddBallot` calls: an INIT ballot for "h1", a SIGN ballot for "h2", a SIGN ballot
for "h1". -/
def threeCalls : List (Ballot × String) :=
  [(sampleBallot "n1" "h1" .INIT .YES, "id1"), (sampleBallot "n1" "h2" .SIGN .YES, "id2"),
   (sampleBallot "n2" "h1" .SIGN .YES, "id3")]

theorem charsLess_iff_lt : ∀ (a b : List Char), charsLess a b = true ↔ a < b
  | [], [] => by simp [charsLess]
  | [], _ :: _ => by simp [charsLess, List.nil_lt_cons]
  | _ :: _, [] => by simp [charsLess]
  | a :: as, b :: bs => by
    unfold charsLess
    by_cases h : a = b
    · subst h
      simp only [if_true]
      rw [charsLess_iff_lt as bs]
      exact List.Lex.cons_iff.symm
    · simp only [if_neg h, decide_eq_true_eq]
      constructor
      · intro hlt
        exact List.Lex.rel hlt
      · intro e
        cases e with
        | cons _ => exact absurd rfl h
        | rel hlt => exact hlt

theorem stringLess_iff_lt (a b : String) : stringLess a b = true ↔ a < b := by
  rw [String.lt_iff_toList_lt]
  exact charsLess_iff_lt a.data b.data

theorem stringLess_eq_false_iff (a b : String) : stringLess b a = false ↔ a ≤ b := by
  rw [← not_lt, ← stringLess_iff_lt, Bool.not_eq_true]

instance stringLess_total : IsTotal String (fun x y => stringLess y x = false) :=
  ⟨fun a b => by
    rw [stringLess_eq_false_iff, stringLess_eq_false_iff]
    exact le_total a b⟩

instance stringLess_trans : IsTrans String (fun x y => stringLess y x = false) :=
  ⟨fun a b c => by
    rw [stringLess_eq_false_iff, stringLess_eq_false_iff, stringLess_eq_false_iff]
    exact le_trans⟩

theorem sortStrings_perm (a : List String) : (sortStrings a).Perm a :=
  List.perm_insertionSort _ a

theorem sortStrings_sorted (a : List String) : (sortStrings a).Sorted (· ≤ ·) := by
  have h := List.sorted_insertionSort (fun x y : String => stringLess y x = false) a
  exact List.Pairwise.imp (fun {x y} hxy => (stringLess_eq_false_iff x y).1 hxy) h

theorem sortStrings_eq_self {a : List String} (h : a.Sorted (· ≤ ·)) : sortStrings a = a := by
  have h1 : a.Sorted (fun x y : String => stringLess y x = false) :=
    List.Pairwise.imp (fun {x y} hxy => (stringLess_eq_false_iff x y).2 hxy) h
  exact List.Sorted.insertionSort_eq h1

theorem mem_sortStrings {a : List String} {x : String} : x ∈ sortStrings a ↔ x ∈ a :=
  (sortStrings_perm a).mem_iff

theorem sortStrings_strict {a : List String} (h : a.Nodup) : (sortStrings a).Sorted (· < ·) :=
  (sortStrings_sorted a).lt_of_le ((sortStrings_perm a).nodup_iff.2 h)

/-! ## Binary search -/

theorem searchLoop_spec (f : Nat → Bool) (n : Nat)
    (hmono : ∀ a b, a ≤ b → b < n → f a = true → f b = true) :
    ∀ (fuel i j : Nat), i ≤ j → j ≤ n → j - i ≤ fuel →
      (∀ k, k < i → f k = false) → (∀ k, j ≤ k → k < n → f k = true) →
      (searchLoop f fuel i j ≤ n ∧
        (∀ k, k < searchLoop f fuel i j → f k = false) ∧
        (∀ k, searchLoop f fuel i j ≤ k → k < n → f k = true)) := by
  intro fuel
  induction fuel with
  | zero =>
    intro i j hij hjn hfuel hlo hhi
    have hji : j = i := by omega
    subst hji
    exact ⟨hjn, hlo, hhi⟩
  | succ fuel ih =>
    intro i j hij hjn hfuel hlo hhi
    unfold searchLoop
    by_cases hlt : i < j
    · rw [if_pos hlt]
      have hmid1 : i ≤ (i + j) / 2 := by omega
      have hmid2 : (i + j) / 2 < j := by omega
      by_cases hf : f ((i + j) / 2) = true
      · have hneg : (!f ((i + j) / 2)) = false := by rw [hf]; rfl
        rw [hneg]
        simp only [Bool.false_eq_true, if_false]
        apply ih i ((i + j) / 2) hmid1 (by omega) (by omega) hlo
        intro k hk hkn
        exact hmono _ k hk hkn hf
      · have hf0 : f ((i + j) / 2) = false := by simpa using hf
        have hneg : (!f ((i + j) / 2)) = true := by rw [hf0]; rfl
        rw [hneg]
        simp only [if_true]
        apply ih ((i + j) / 2 + 1) j (by omega) hjn (by omega) _ hhi
        intro k hk
        by_contra hc
        have hk1 : f k = true := by simpa using hc
        have := hmono k ((i + j) / 2) (by omega) (by omega) hk1
        rw [hf0] at this
        exact Bool.noConfusion this
    · rw [if_neg hlt]
      have hji : j = i := by omega
      subst hji
      exact ⟨hjn, hlo, hhi⟩

/-- On a strictly ascending slice that holds `x`, `sort.SearchStrings` returns an index that
is in range and points at `x`. -/
theorem SearchStrings_spec {a : List String} {x : String} (hs : a.Sorted (· < ·))
    (hx : x ∈ a) :
    ∃ h : SearchStrings a x < a.length, a.get ⟨SearchStrings a x, h⟩ = x := by
  obtain ⟨m, hm, hmx⟩ := List.getElem_of_mem hx
  have hget : ∀ k (hk : k < a.length), a.getD k "" = a[k] := fun k hk =>
    List.getD_eq_getElem a "" hk
  have hmono : ∀ p q, p ≤ q → q < a.length →
      (fun i => !stringLess (a.getD i "") x) p = true →
      (fun i => !stringLess (a.getD i "") x) q = true := by
    intro p q hpq hq hp
    have hpl : p < a.length := by omega
    simp only [Bool.not_eq_true', hget p hpl, hget q hq, stringLess_eq_false_iff] at hp ⊢
    rcases Nat.eq_or_lt_of_le hpq with h | h
    · subst h; exact hp
    · exact le_trans hp (le_of_lt (List.pairwise_iff_getElem.1 hs p q hpl hq h))
  have key := searchLoop_spec (fun i => !stringLess (a.getD i "") x) a.length hmono
    a.length 0 a.length (Nat.zero_le _) (Nat.le_refl _) (by omega)
    (fun k hk => absurd hk (Nat.not_lt_zero k)) (fun k hk hkn => absurd hkn (by omega))
  obtain ⟨_, hlo, hhi⟩ := key
  have hr : SearchStrings a x = searchLoop (fun i => !stringLess (a.getD i "") x)
      a.length 0 a.length := rfl
  rw [← hr] at hlo hhi
  have h1 : SearchStrings a x ≤ m := by
    by_contra hc
    have := hlo m (by omega)
    simp only [Bool.not_eq_false', hget m hm, hmx, stringLess_iff_lt] at this
    exact lt_irrefl x this
  have h2 : ¬ SearchStrings a x < m := by
    intro hc
    have hrl : SearchStrings a x < a.length := by omega
    have := hhi (SearchStrings a x) (Nat.le_refl _) hrl
    simp only [Bool.not_eq_true', hget _ hrl, stringLess_eq_false_iff] at this
    have hlt := List.pairwise_iff_getElem.1 hs (SearchStrings a x) m hrl hm hc
    rw [hmx] at hlt
    exact absurd hlt (not_lt.2 this)
  have h3 : SearchStrings a x = m := by omega
  refine ⟨by omega, ?_⟩
  simp only [List.get_eq_getElem, h3, hmx]

/-! ## Maps -/

theorem dlookup_kreplace {α V : Type} [DecidableEq α] (a k : α) (b : V) :
    ∀ l : List (Sigma fun _ : α => V),
      (List.kreplace a b l).dlookup k =
        if k = a then (l.dlookup k).map (fun _ => b) else l.dlookup k
  | [] => by simp [List.kreplace]
  | ⟨a1, b1⟩ :: l => by
    have ih := dlookup_kreplace a k b l
    unfold List.kreplace at ih ⊢
    by_cases h1 : a = a1
    · subst h1
      rw [List.lookmap_cons_some (b := ⟨a, b⟩) _ _ (by simp)]
      by_cases hk : k = a
      · subst hk
        simp [List.dlookup_cons_eq]
      · rw [if_neg hk]
        rw [List.dlookup_cons_ne l (⟨a, b⟩ : Sigma fun _ : α => V) hk,
          List.dlookup_cons_ne l (⟨a, b1⟩ : Sigma fun _ : α => V) hk]
    · rw [List.lookmap_cons_none _ _ (by simp [h1])]
      by_cases hk : k = a1
      · subst hk
        have : ¬ k = a := fun e => h1 e.symm
        simp [List.dlookup_cons_eq, this]
      · rw [List.dlookup_cons_ne _ (⟨a1, b1⟩ : Sigma fun _ : α => V) hk,
          List.dlookup_cons_ne _ (⟨a1, b1⟩ : Sigma fun _ : α => V) hk]
        exact ih

/-- Reading a map after the value under key `a` was overwritten in place. -/
theorem lookup_replace {α V : Type} [DecidableEq α] (s : AList (fun _ : α => V)) (a k : α)
    (b : V) :
    (s.replace a b).lookup k = if k = a then (s.lookup k).map (fun _ => b) else s.lookup k :=
  dlookup_kreplace a k b s.entries

/-! ## A single box -/

theorem BallotBox.has_iff (b : BallotBox) (h : String) :
    b.HasMessageByString h = true ↔ h ∈ b.Hashes := by
  simp [BallotBox.HasMessageByString, InStringArray]

theorem BallotBox.has_false_iff (b : BallotBox) (h : String) :
    b.HasMessageByString h = false ↔ h ∉ b.Hashes := by
  rw [← BallotBox.has_iff, Bool.not_eq_true]

theorem BallotBox.mem_add (b : BallotBox) (vr : VotingResult) (k : String) :
    k ∈ (b.AddVotingResult vr).1.Hashes ↔ k = vr.MessageHash ∨ k ∈ b.Hashes := by
  unfold BallotBox.AddVotingResult
  by_cases h : b.HasMessageByString vr.MessageHash = true
  · rw [if_pos h]
    constructor
    · exact Or.inr
    · rintro (rfl | hk)
      · exact (b.has_iff _).1 h
      · exact hk
  · rw [if_neg h]
    simp only [mem_sortStrings, List.mem_append, List.mem_singleton]
    exact Or.comm

theorem BallotBox.sorted_add (b : BallotBox) (vr : VotingResult)
    (hs : b.Hashes.Sorted (· < ·)) : (b.AddVotingResult vr).1.Hashes.Sorted (· < ·) := by
  unfold BallotBox.AddVotingResult
  by_cases h : b.HasMessageByString vr.MessageHash = true
  · rw [if_pos h]; exact hs
  · rw [if_neg h]
    apply sortStrings_strict
    have hn : vr.MessageHash ∉ b.Hashes := fun hm => h ((b.has_iff _).2 hm)
    rw [List.nodup_append]
    refine ⟨hs.nodup, List.nodup_singleton _, ?_⟩
    intro x hx hx1
    rw [List.mem_singleton] at hx1
    exact hn (hx1 ▸ hx)

/-- On a strictly ascending box that holds the hash, `RemoveVotingResult` does not panic,
returns nil and erases exactly that hash. -/
theorem BallotBox.remove_of_mem (b : BallotBox) (vr : VotingResult)
    (hs : b.Hashes.Sorted (· < ·)) (hm : vr.MessageHash ∈ b.Hashes) :
    b.RemoveVotingResult vr = some ({ Hashes := b.Hashes.erase vr.MessageHash }, none) := by
  obtain ⟨hlt, hget⟩ := SearchStrings_spec hs hm
  unfold BallotBox.RemoveVotingResult
  have hhas : b.HasMessageByString vr.MessageHash = true := (b.has_iff _).2 hm
  simp only [hhas, Bool.not_true, Bool.false_eq_true, if_false]
  rw [if_pos (Nat.succ_le_of_lt hlt)]
  have herase : b.Hashes.take (SearchStrings b.Hashes vr.MessageHash) ++
      b.Hashes.drop (SearchStrings b.Hashes vr.MessageHash + 1) =
      b.Hashes.erase vr.MessageHash := by
    rw [← List.eraseIdx_eq_take_drop_succ]
    have := List.Nodup.erase_getElem hs.nodup (SearchStrings b.Hashes vr.MessageHash) hlt
    rw [← this]
    have hget1 : b.Hashes[SearchStrings b.Hashes vr.MessageHash] = vr.MessageHash := hget
    rw [hget1]
  rw [herase]
  have hsub : (b.Hashes.erase vr.MessageHash).Sorted (· < ·) :=
    List.Pairwise.sublist (List.erase_sublist _ _) hs
  rw [sortStrings_eq_self hsub.le_of_lt]

/-- Whatever the box looks like, a `RemoveVotingResult` that returns leaves a sub-multiset of
the old hashes. -/
theorem BallotBox.mem_of_mem_remove (b b1 : BallotBox) (vr : VotingResult) (e : Option Error)
    (h : b.RemoveVotingResult vr = some (b1, e)) (k : String) (hk : k ∈ b1.Hashes) :
    k ∈ b.Hashes := by
  unfold BallotBox.RemoveVotingResult at h
  by_cases hhas : b.HasMessageByString vr.MessageHash = true
  · simp only [hhas, Bool.not_true, Bool.false_eq_true, if_false] at h
    by_cases hr : SearchStrings b.Hashes vr.MessageHash + 1 ≤ b.Hashes.length
    · rw [if_pos hr] at h
      simp only [Option.some.injEq, Prod.mk.injEq] at h
      rw [← h.1] at hk
      rw [mem_sortStrings, List.mem_append] at hk
      rcases hk with hk | hk
      · exact List.mem_of_mem_take hk
      · exact List.mem_of_mem_drop hk
    · rw [if_neg hr] at h
      exact absurd h (by simp)
  · have hf : b.HasMessageByString vr.MessageHash = false := by simpa using hhas
    simp only [hf, Bool.not_false, if_true, Option.some.injEq, Prod.mk.injEq] at h
    rw [← h.1] at hk
    exact hk

/-! ## `BallotBoxes.AddBallot`, case by case -/

theorem BallotBoxes.AddBallot_new (B : BallotBoxes) (ballot : Ballot) (id : String)
    (hnew : B.HasMessageByString ballot.MessageHash = false) :
    B.AddBallot ballot id =
      some ((B.AddVotingResult
        { ID := id
          MessageHash := ballot.MessageHash
          State := ballot.State
          Voted := (∅ : AList (fun _ : BallotState => Votes)).insert ballot.State
            ((∅ : Votes).insert ballot.B.NodeKey ballot.B.VotingHole) }
        (if ballot.State = .INIT then .Waiting else .Voting)).1, true, none) := by
  unfold BallotBoxes.AddBallot
  simp only [hnew, Bool.not_false, Bool.not_true, Bool.false_eq_true, if_false, NewVotingResult]
  by_cases hs : ballot.State = .INIT
  · simp only [hs, if_true]; rfl
  · simp only [hs, if_false]; rfl

theorem BallotBoxes.AddBallot_old (B : BallotBoxes) (ballot : Ballot) (id : String)
    (hkey : B.HasMessageByString ballot.MessageHash = true) :
    ∃ vr, B.Results.lookup ballot.MessageHash = some vr ∧
      B.AddBallot ballot id =
        (match vr.Add ballot with
        | (_, some err) => some (B, false, some err)
        | (vr1, none) =>
          if B.ReservedBox.HasMessageByString ballot.MessageHash then
            match B.ReservedBox.RemoveVotingResult vr1 with
            | none => none
            | some (reserved, _) =>
              some ({ B with
                      Results := B.Results.replace ballot.MessageHash vr1
                      ReservedBox := reserved
                      VotingBox := (B.VotingBox.AddVotingResult vr1).1 }, false, none)
          else some ({ B with Results := B.Results.replace ballot.MessageHash vr1 }, false, none)) := by
  have hsome := hkey
  unfold BallotBoxes.HasMessageByString at hsome
  obtain ⟨vr, hvr⟩ := Option.isSome_iff_exists.1 hsome
  refine ⟨vr, hvr, ?_⟩
  unfold BallotBoxes.AddBallot BallotBoxes.VotingResult
  simp only [hkey, Bool.not_true, Bool.false_eq_true, if_false, hvr, Bool.not_false, if_true]

theorem VotingResult.Add_cases (r : VotingResult) (ballot : Ballot) :
    (ballot.MessageHash ≠ r.MessageHash ∧ r.Add ballot = (r, some .ErrorHashDoesNotMatch)) ∨
    (ballot.MessageHash = r.MessageHash ∧
      ∃ r1, r.Add ballot = (r1, none) ∧ r1.MessageHash = r.MessageHash) := by
  by_cases h : ballot.MessageHash = r.MessageHash
  · right
    refine ⟨h, { r with
        State := r.State.max ballot.State
        Voted := r.Voted.insert ballot.State
          ((r.votes ballot.State).insert ballot.B.NodeKey ballot.B.VotingHole) }, ?_, rfl⟩
    unfold VotingResult.Add
    rw [if_neg (not_not.2 h)]
  · left
    refine ⟨h, ?_⟩
    unfold VotingResult.Add
    rw [if_pos h]

theorem BallotBoxes.has_AddVotingResult (B : BallotBoxes) (vr : Sebak.VotingResult) (bb : BoxRef)
    (k : String) :
    (B.AddVotingResult vr bb).1.HasMessageByString k = true ↔
      k = vr.MessageHash ∨ B.HasMessageByString k = true := by
  have h : (B.AddVotingResult vr bb).1.Results = B.Results.insert vr.MessageHash vr := by
    cases bb <;> rfl
  unfold BallotBoxes.HasMessageByString
  rw [h, AList.lookup_isSome, AList.lookup_isSome, AList.mem_insert]

/-! ## Claims on `BallotBoxes.AddBallot` -/

/-- C1: `AddBallot` of a ballot whose message hash is not yet a key of `Results` returns
`isNew = true` and a nil error; afterwards the hash is a key of `Results`, it is in
`WaitingBox` when the ballot's state is INIT and in `VotingBox` otherwise, and the other two
boxes are unchanged. -/
theorem AddBallot_first_seen (B : BallotBoxes) (ballot : Ballot) (id : String)
    (hnew : B.HasMessageByString ballot.MessageHash = false) :
    ∃ B1, B.AddBallot ballot id = some (B1, true, none) ∧
      B1.HasMessageByString ballot.MessageHash = true ∧
      (ballot.State = .INIT →
        B1.WaitingBox.HasMessageByString ballot.MessageHash = true ∧
        B1.VotingBox = B.VotingBox ∧ B1.ReservedBox = B.ReservedBox) ∧
      (ballot.State ≠ .INIT →
        B1.VotingBox.HasMessageByString ballot.MessageHash = true ∧
        B1.WaitingBox = B.WaitingBox ∧ B1.ReservedBox = B.ReservedBox) := by
  refine ⟨_, B.AddBallot_new ballot id hnew, ?_, ?_, ?_⟩
  · rw [BallotBoxes.has_AddVotingResult]
    exact Or.inl rfl
  · intro hs
    rw [if_pos hs]
    refine ⟨?_, rfl, rfl⟩
    rw [BallotBox.has_iff]
    exact (BallotBox.mem_add _ _ _).2 (Or.inl rfl)
  · intro hs
    rw [if_neg hs]
    refine ⟨?_, rfl, rfl⟩
    rw [BallotBox.has_iff]
    exact (BallotBox.mem_add _ _ _).2 (Or.inl rfl)

/-- Witness of C1: a SIGN ballot for a payload the empty structure has not seen. -/
theorem AddBallot_first_seen_witness :
    NewBallotBoxes.HasMessageByString (sampleBallot "n1" "h1" .SIGN .YES).MessageHash = false ∧
    ∃ B1, NewBallotBoxes.AddBallot (sampleBallot "n1" "h1" .SIGN .YES) "id" =
        some (B1, true, none) ∧
      B1.HasMessageByString (sampleBallot "n1" "h1" .SIGN .YES).MessageHash = true ∧
      ((sampleBallot "n1" "h1" .SIGN .YES).State = .INIT →
        B1.WaitingBox.HasMessageByString (sampleBallot "n1" "h1" .SIGN .YES).MessageHash = true ∧
        B1.VotingBox = NewBallotBoxes.VotingBox ∧ B1.ReservedBox = NewBallotBoxes.ReservedBox) ∧
      ((sampleBallot "n1" "h1" .SIGN .YES).State ≠ .INIT →
        B1.VotingBox.HasMessageByString (sampleBallot "n1" "h1" .SIGN .YES).MessageHash = true ∧
        B1.WaitingBox = NewBallotBoxes.WaitingBox ∧
        B1.ReservedBox = NewBallotBoxes.ReservedBox) :=
  ⟨by decide, AddBallot_first_seen NewBallotBoxes (sampleBallot "n1" "h1" .SIGN .YES) "id"
    (by decide)⟩

/-- C3: when the hash is a key of `Results`, is in `WaitingBox` and is not in `ReservedBox`,
`AddBallot` of any ballot with that hash returns `isNew = false` and leaves the hash lists of
the three boxes as they were, so the hash is still in `WaitingBox`. -/
theorem AddBallot_keeps_waiting (B : BallotBoxes) (ballot : Ballot) (id : String)
    (hkey : B.HasMessageByString ballot.MessageHash = true)
    (hwait : B.WaitingBox.HasMessageByString ballot.MessageHash = true)
    (hres : B.ReservedBox.HasMessageByString ballot.MessageHash = false) :
    ∃ B1 err, B.AddBallot ballot id = some (B1, false, err) ∧
      B1.WaitingBox.Hashes = B.WaitingBox.Hashes ∧
      B1.VotingBox.Hashes = B.VotingBox.Hashes ∧
      B1.ReservedBox.Hashes = B.ReservedBox.Hashes ∧
      B1.WaitingBox.HasMessageByString ballot.MessageHash = true := by
  obtain ⟨vr, _, hadd⟩ := B.AddBallot_old ballot id hkey
  rw [hadd]
  rcases vr.Add_cases ballot with ⟨_, he⟩ | ⟨_, r1, he, _⟩
  · rw [he]
    exact ⟨B, _, rfl, rfl, rfl, rfl, hwait⟩
  · rw [he]
    simp only [hres, Bool.false_eq_true, if_false]
    exact ⟨_, _, rfl, rfl, rfl, rfl, hwait⟩

/-- Witness of C3: a SIGN ballot for a payload whose INIT ballot put it into `WaitingBox`. -/
theorem AddBallot_keeps_waiting_witness :
    (NewBallotBoxes.AddVotingResult (sampleResult "h1") .Waiting).1.HasMessageByString
        (sampleBallot "n2" "h1" .SIGN .YES).MessageHash = true ∧
    (NewBallotBoxes.AddVotingResult (sampleResult "h1") .Waiting).1.WaitingBox.Hashes = ["h1"] ∧
    ∃ B1 err,
      (NewBallotBoxes.AddVotingResult (sampleResult "h1") .Waiting).1.AddBallot
          (sampleBallot "n2" "h1" .SIGN .YES) "id" = some (B1, false, err) ∧
      B1.WaitingBox.Hashes =
        (NewBallotBoxes.AddVotingResult (sampleResult "h1") .Waiting).1.WaitingBox.Hashes ∧
      B1.VotingBox.Hashes =
        (NewBallotBoxes.AddVotingResult (sampleResult "h1") .Waiting).1.VotingBox.Hashes ∧
      B1.ReservedBox.Hashes =
        (NewBallotBoxes.AddVotingResult (sampleResult "h1") .Waiting).1.ReservedBox.Hashes ∧
      B1.WaitingBox.HasMessageByString (sampleBallot "n2" "h1" .SIGN .YES).MessageHash = true :=
  ⟨by decide, by decide,
    AddBallot_keeps_waiting (NewBallotBoxes.AddVotingResult (sampleResult "h1") .Waiting).1
      (sampleBallot "n2" "h1" .SIGN .YES) "id" (by decide) (by decide) (by decide)⟩

/-- C4: an `AddBallot` that returns a non-nil error leaves the keys of `Results` and the hash
lists of the three boxes as they were before the call. -/
theorem AddBallot_error_atomic (B B1 : BallotBoxes) (ballot : Ballot) (id : String)
    (isNew : Bool) (err : Error)
    (h : B.AddBallot ballot id = some (B1, isNew, some err)) :
    B1.Results.keys = B.Results.keys ∧
      B1.WaitingBox.Hashes = B.WaitingBox.Hashes ∧
      B1.VotingBox.Hashes = B.VotingBox.Hashes ∧
      B1.ReservedBox.Hashes = B.ReservedBox.Hashes := by
  by_cases hkey : B.HasMessageByString ballot.MessageHash = true
  · obtain ⟨vr, _, hadd⟩ := B.AddBallot_old ballot id hkey
    rw [hadd] at h
    rcases vr.Add_cases ballot with ⟨_, he⟩ | ⟨_, r1, he, _⟩
    · rw [he] at h
      simp only [Option.some.injEq, Prod.mk.injEq] at h
      rw [← h.1]
      exact ⟨rfl, rfl, rfl, rfl⟩
    · rw [he] at h
      exfalso
      by_cases hres : B.ReservedBox.HasMessageByString ballot.MessageHash = true
      · simp only [hres, if_true] at h
        cases hrm : B.ReservedBox.RemoveVotingResult r1 with
        | none => rw [hrm] at h; simp at h
        | some p => rw [hrm] at h; simp at h
      · simp only [hres, Bool.false_eq_true, if_false] at h
        simp at h
  · have hnew : B.HasMessageByString ballot.MessageHash = false := by simpa using hkey
    rw [B.AddBallot_new ballot id hnew] at h
    simp at h

/-- Witness of C4: a ballot whose hash is a key that maps to the result of another payload. -/
theorem AddBallot_error_atomic_witness :
    mismatchedBoxes.AddBallot (sampleBallot "n1" "h1" .INIT .YES) "id" =
        some (mismatchedBoxes, false, some .ErrorHashDoesNotMatch) ∧
      (mismatchedBoxes.Results.keys = mismatchedBoxes.Results.keys ∧
        mismatchedBoxes.WaitingBox.Hashes = mismatchedBoxes.WaitingBox.Hashes ∧
        mismatchedBoxes.VotingBox.Hashes = mismatchedBoxes.VotingBox.Hashes ∧
        mismatchedBoxes.ReservedBox.Hashes = mismatchedBoxes.ReservedBox.Hashes) :=
  ⟨rfl, AddBallot_error_atomic mismatchedBoxes mismatchedBoxes
    (sampleBallot "n1" "h1" .INIT .YES) "id" false .ErrorHashDoesNotMatch rfl⟩

/-! ## What one call does to the structure -/

/-- The four ways in which `AddBallot` can return: a first-seen payload is stored through
`AddVotingResult`; `VotingResult.Add` fails and nothing changes; the ballot is recorded and no
box changes; the ballot is recorded and the hash moves from `ReservedBox` to `VotingBox`. -/
theorem BallotBoxes.AddBallot_shape (B B1 : BallotBoxes) (ballot : Ballot) (id : String)
    (isNew : Bool) (err : Option Error)
    (h : B.AddBallot ballot id = some (B1, isNew, err)) :
    (∃ vr bb, vr.MessageHash = ballot.MessageHash ∧ bb ≠ BoxRef.Foreign ∧
        B.HasMessageByString ballot.MessageHash = false ∧
        B1 = (B.AddVotingResult vr bb).1) ∨
    B1 = B ∨
    (∃ r1 : Sebak.VotingResult, r1.MessageHash = ballot.MessageHash ∧
        B.ReservedBox.HasMessageByString ballot.MessageHash = false ∧
        B1 = { B with Results := B.Results.replace ballot.MessageHash r1 }) ∨
    (∃ (r1 : Sebak.VotingResult) (reserved : BallotBox) (e : Option Error),
        r1.MessageHash = ballot.MessageHash ∧
        B.ReservedBox.HasMessageByString ballot.MessageHash = true ∧
        B.ReservedBox.RemoveVotingResult r1 = some (reserved, e) ∧
        B1 = { B with
                Results := B.Results.replace ballot.MessageHash r1
                ReservedBox := reserved
                VotingBox := (B.VotingBox.AddVotingResult r1).1 }) := by
  by_cases hkey : B.HasMessageByString ballot.MessageHash = true
  · obtain ⟨vr, _, hadd⟩ := B.AddBallot_old ballot id hkey
    rw [hadd] at h
    rcases vr.Add_cases ballot with ⟨_, he⟩ | ⟨hm, r1, he, hr1⟩
    · rw [he] at h
      simp only [Option.some.injEq, Prod.mk.injEq] at h
      exact Or.inr (Or.inl h.1.symm)
    · rw [he] at h
      have hr1h : r1.MessageHash = ballot.MessageHash := by rw [hr1, hm]
      by_cases hres : B.ReservedBox.HasMessageByString ballot.MessageHash = true
      · simp only [hres, if_true] at h
        cases hrm : B.ReservedBox.RemoveVotingResult r1 with
        | none => rw [hrm] at h; simp at h
        | some p =>
          obtain ⟨reserved, e⟩ := p
          rw [hrm] at h
          simp only [Option.some.injEq, Prod.mk.injEq] at h
          exact Or.inr (Or.inr (Or.inr ⟨r1, reserved, e, hr1h, hres, hrm, h.1.symm⟩))
      · have hres0 : B.ReservedBox.HasMessageByString ballot.MessageHash = false := by
          simpa using hres
        simp only [hres0, Bool.false_eq_true, if_false, Option.some.injEq, Prod.mk.injEq] at h
        exact Or.inr (Or.inr (Or.inl ⟨r1, hr1h, hres0, h.1.symm⟩))
  · have hnew : B.HasMessageByString ballot.MessageHash = false := by simpa using hkey
    rw [B.AddBallot_new ballot id hnew] at h
    simp only [Option.some.injEq, Prod.mk.injEq] at h
    refine Or.inl ⟨_, _, rfl, ?_, hnew, h.1.symm⟩
    by_cases hs : ballot.State = .INIT
    · rw [if_pos hs]; decide
    · rw [if_neg hs]; decide

theorem BallotBoxes.has_replace (B : BallotBoxes) (a : String) (r1 : Sebak.VotingResult)
    (k : String) :
    ((B.Results.replace a r1).lookup k).isSome = (B.Results.lookup k).isSome := by
  rw [lookup_replace]
  by_cases hk : k = a
  · rw [if_pos hk]; simp
  · rw [if_neg hk]

theorem BallotBoxes.owned_AddVotingResult (B : BallotBoxes) (vr : Sebak.VotingResult)
    (bb : BoxRef) (hB : B.Owned) : (B.AddVotingResult vr bb).1.Owned := by
  intro k hk
  rw [BallotBoxes.has_AddVotingResult]
  cases bb with
  | Waiting =>
    rcases hk with hk | hk | hk
    · rcases (BallotBox.mem_add _ _ _).1 hk with hk | hk
      · exact Or.inl hk
      · exact Or.inr (hB k (Or.inl hk))
    · exact Or.inr (hB k (Or.inr (Or.inl hk)))
    · exact Or.inr (hB k (Or.inr (Or.inr hk)))
  | Voting =>
    rcases hk with hk | hk | hk
    · exact Or.inr (hB k (Or.inl hk))
    · rcases (BallotBox.mem_add _ _ _).1 hk with hk | hk
      · exact Or.inl hk
      · exact Or.inr (hB k (Or.inr (Or.inl hk)))
    · exact Or.inr (hB k (Or.inr (Or.inr hk)))
  | Reserved =>
    rcases hk with hk | hk | hk
    · exact Or.inr (hB k (Or.inl hk))
    · exact Or.inr (hB k (Or.inr (Or.inl hk)))
    · rcases (BallotBox.mem_add _ _ _).1 hk with hk | hk
      · exact Or.inl hk
      · exact Or.inr (hB k (Or.inr (Or.inr hk)))
  | Foreign => exact Or.inr (hB k hk)

theorem BallotBoxes.owned_step (B B1 : BallotBoxes) (op : Op) (hB : B.Owned)
    (h : B.step op = some B1) : B1.Owned := by
  cases op with
  | addVotingResult vr bb =>
    simp only [BallotBoxes.step, Option.some.injEq] at h
    rw [← h]
    exact B.owned_AddVotingResult vr bb hB
  | addBallot ballot id =>
    simp only [BallotBoxes.step, Option.map_eq_some'] at h
    obtain ⟨⟨B2, isNew, err⟩, hadd, hB2⟩ := h
    simp only at hB2
    subst hB2
    rcases B.AddBallot_shape B2 ballot id isNew err hadd with
      ⟨vr, bb, _, _, _, rfl⟩ | rfl | ⟨r1, _, _, rfl⟩ | ⟨r1, reserved, e, hr1, hres, hrm, rfl⟩
    · exact B.owned_AddVotingResult vr bb hB
    · exact hB
    · intro k hk
      have := hB k hk
      unfold BallotBoxes.HasMessageByString at this ⊢
      rw [← this]
      exact B.has_replace _ r1 k
    · intro k hk
      have hrep : ∀ k, B.HasMessageByString k = true →
          BallotBoxes.HasMessageByString
            { B with
              Results := B.Results.replace ballot.MessageHash r1
              ReservedBox := reserved
              VotingBox := (B.VotingBox.AddVotingResult r1).1 } k = true := by
        intro k hk
        unfold BallotBoxes.HasMessageByString at hk ⊢
        rw [← hk]
        exact B.has_replace _ r1 k
      apply hrep
      rcases hk with hk | hk | hk
      · exact hB k (Or.inl hk)
      · rcases (BallotBox.mem_add _ _ _).1 hk with hk | hk
        · rw [hk, hr1]
          exact hB _ (Or.inr (Or.inr ((BallotBox.has_iff _ _).1 hres)))
        · exact hB k (Or.inr (Or.inl hk))
      · exact hB k (Or.inr (Or.inr (BallotBox.mem_of_mem_remove _ _ _ _ hrm k hk)))

theorem NewBallotBoxes_owned : NewBallotBoxes.Owned := by
  intro k hk
  simp [NewBallotBoxes, NewBallotBox] at hk

theorem ReachableBy.owned {ok : BallotBoxes → Op → Prop} {B : BallotBoxes}
    (h : ReachableBy ok B) : B.Owned := by
  induction h with
  | init => exact NewBallotBoxes_owned
  | step op _ _ hstep ih => exact BallotBoxes.owned_step _ _ op ih hstep

theorem BallotBoxes.ascending_AddVotingResult (B : BallotBoxes) (vr : Sebak.VotingResult)
    (bb : BoxRef) (hB : B.Ascending) : (B.AddVotingResult vr bb).1.Ascending := by
  obtain ⟨hw, hv, hr⟩ := hB
  cases bb with
  | Waiting => exact ⟨BallotBox.sorted_add _ vr hw, hv, hr⟩
  | Voting => exact ⟨hw, BallotBox.sorted_add _ vr hv, hr⟩
  | Reserved => exact ⟨hw, hv, BallotBox.sorted_add _ vr hr⟩
  | Foreign => exact ⟨hw, hv, hr⟩

/-- In a structure with ascending boxes the fourth way of `AddBallot_shape` erases exactly the
ballot's hash from `ReservedBox`. -/
theorem BallotBoxes.reserved_after_remove (B : BallotBoxes) (hB : B.Ascending)
    (ballot : Ballot) (r1 : Sebak.VotingResult) (reserved : BallotBox) (e : Option Error)
    (hr1 : r1.MessageHash = ballot.MessageHash)
    (hres : B.ReservedBox.HasMessageByString ballot.MessageHash = true)
    (hrm : B.ReservedBox.RemoveVotingResult r1 = some (reserved, e)) :
    reserved = { Hashes := B.ReservedBox.Hashes.erase ballot.MessageHash } ∧ e = none := by
  have hm : r1.MessageHash ∈ B.ReservedBox.Hashes := by
    rw [hr1]; exact (BallotBox.has_iff _ _).1 hres
  rw [BallotBox.remove_of_mem _ r1 hB.2.2 hm, hr1] at hrm
  simp only [Option.some.injEq, Prod.mk.injEq] at hrm
  exact ⟨hrm.1.symm, hrm.2.symm⟩

theorem BallotBoxes.ascending_step (B B1 : BallotBoxes) (op : Op) (hB : B.Ascending)
    (h : B.step op = some B1) : B1.Ascending := by
  cases op with
  | addVotingResult vr bb =>
    simp only [BallotBoxes.step, Option.some.injEq] at h
    rw [← h]
    exact B.ascending_AddVotingResult vr bb hB
  | addBallot ballot id =>
    simp only [BallotBoxes.step, Option.map_eq_some'] at h
    obtain ⟨⟨B2, isNew, err⟩, hadd, hB2⟩ := h
    simp only at hB2
    subst hB2
    rcases B.AddBallot_shape B2 ballot id isNew err hadd with
      ⟨vr, bb, _, _, _, rfl⟩ | rfl | ⟨r1, _, _, rfl⟩ | ⟨r1, reserved, e, hr1, hres, hrm, rfl⟩
    · exact B.ascending_AddVotingResult vr bb hB
    · exact hB
    · exact hB
    · obtain ⟨hreserved, _⟩ := B.reserved_after_remove hB ballot r1 reserved e hr1 hres hrm
      refine ⟨hB.1, BallotBox.sorted_add _ r1 hB.2.1, ?_⟩
      rw [hreserved]
      exact List.Pairwise.sublist (List.erase_sublist _ _) hB.2.2

theorem ReachableBy.ascending {ok : BallotBoxes → Op → Prop} {B : BallotBoxes}
    (h : ReachableBy ok B) : B.Ascending := by
  induction h with
  | init => exact ⟨List.sorted_nil, List.sorted_nil, List.sorted_nil⟩
  | step op _ _ hstep ih => exact BallotBoxes.ascending_step _ _ op ih hstep

theorem BallotBoxes.keyed_AddVotingResult (B : BallotBoxes) (vr : Sebak.VotingResult)
    (bb : BoxRef) (hB : B.KeyedByHash) : (B.AddVotingResult vr bb).1.KeyedByHash := by
  have h : (B.AddVotingResult vr bb).1.Results = B.Results.insert vr.MessageHash vr := by
    cases bb <;> rfl
  intro k v hk
  rw [h] at hk
  by_cases hkey : k = vr.MessageHash
  · subst hkey
    rw [AList.lookup_insert] at hk
    simp only [Option.some.injEq] at hk
    rw [← hk]
  · rw [AList.lookup_insert_ne hkey] at hk
    exact hB k v hk

theorem BallotBoxes.keyed_replace (B : BallotBoxes) (a : String) (r1 : Sebak.VotingResult)
    (hr1 : r1.MessageHash = a) (hB : B.KeyedByHash) (k : String) (v : Sebak.VotingResult)
    (hk : (B.Results.replace a r1).lookup k = some v) : v.MessageHash = k := by
  rw [lookup_replace] at hk
  by_cases hka : k = a
  · rw [if_pos hka] at hk
    cases hl : B.Results.lookup k with
    | none => rw [hl] at hk; simp at hk
    | some w =>
      rw [hl] at hk
      simp only [Option.map_some', Option.some.injEq] at hk
      rw [← hk, hr1, hka]
  · rw [if_neg hka] at hk
    exact hB k v hk

theorem BallotBoxes.keyed_step (B B1 : BallotBoxes) (op : Op) (hB : B.KeyedByHash)
    (h : B.step op = some B1) : B1.KeyedByHash := by
  cases op with
  | addVotingResult vr bb =>
    simp only [BallotBoxes.step, Option.some.injEq] at h
    rw [← h]
    exact B.keyed_AddVotingResult vr bb hB
  | addBallot ballot id =>
    simp only [BallotBoxes.step, Option.map_eq_some'] at h
    obtain ⟨⟨B2, isNew, err⟩, hadd, hB2⟩ := h
    simp only at hB2
    subst hB2
    rcases B.AddBallot_shape B2 ballot id isNew err hadd with
      ⟨vr, bb, _, _, _, rfl⟩ | rfl | ⟨r1, hr1, _, rfl⟩ | ⟨r1, reserved, e, hr1, hres, hrm, rfl⟩
    · exact B.keyed_AddVotingResult vr bb hB
    · exact hB
    · exact fun k v hk => B.keyed_replace _ r1 hr1 hB k v hk
    · exact fun k v hk => B.keyed_replace _ r1 hr1 hB k v hk

theorem ReachableBy.keyed {ok : BallotBoxes → Op → Prop} {B : BallotBoxes}
    (h : ReachableBy ok B) : B.KeyedByHash := by
  induction h with
  | init =>
    intro k v hk
    simp [NewBallotBoxes, AList.lookup_empty] at hk
  | step op _ _ hstep ih => exact BallotBoxes.keyed_step _ _ op ih hstep

/-- C2: in a state reachable through `AddBallot` and `AddVotingResult`, when the ballot's hash
is a key of `Results` and is in `ReservedBox`, `AddBallot` returns `isNew = false` (and a nil
error); afterwards the hash is no longer in `ReservedBox`, it is in `VotingBox`, every other
hash of `ReservedBox` is still there, and `WaitingBox` is unchanged. -/
theorem AddBallot_promotes_reserved (B : BallotBoxes) (hB : Reachable B) (ballot : Ballot)
    (id : String) (hkey : B.HasMessageByString ballot.MessageHash = true)
    (hres : B.ReservedBox.HasMessageByString ballot.MessageHash = true) :
    ∃ B1, B.AddBallot ballot id = some (B1, false, none) ∧
      B1.ReservedBox.HasMessageByString ballot.MessageHash = false ∧
      B1.VotingBox.HasMessageByString ballot.MessageHash = true ∧
      (∀ k, k ≠ ballot.MessageHash → B.ReservedBox.HasMessageByString k = true →
        B1.ReservedBox.HasMessageByString k = true) ∧
      B1.WaitingBox = B.WaitingBox := by
  have hasc : B.Ascending := ReachableBy.ascending hB
  have hkeyed : B.KeyedByHash := ReachableBy.keyed hB
  obtain ⟨vr, hvr, hadd⟩ := B.AddBallot_old ballot id hkey
  have hvrh : vr.MessageHash = ballot.MessageHash := hkeyed _ _ hvr
  rcases vr.Add_cases ballot with ⟨hne, _⟩ | ⟨_, r1, he, hr1⟩
  · exact absurd hvrh.symm hne
  · have hr1h : r1.MessageHash = ballot.MessageHash := by rw [hr1, hvrh]
    have hm : r1.MessageHash ∈ B.ReservedBox.Hashes := by
      rw [hr1h]; exact (BallotBox.has_iff _ _).1 hres
    rw [he] at hadd
    simp only [hres, if_true, BallotBox.remove_of_mem _ r1 hasc.2.2 hm] at hadd
    refine ⟨_, hadd, ?_, ?_, ?_, rfl⟩
    · rw [BallotBox.has_false_iff]
      show ballot.MessageHash ∉ B.ReservedBox.Hashes.erase r1.MessageHash
      rw [hr1h, hasc.2.2.nodup.mem_erase_iff]
      exact fun hc => hc.1 rfl
    · rw [BallotBox.has_iff]
      exact (BallotBox.mem_add _ _ _).2 (Or.inl hr1h.symm)
    · intro k hk hkr
      rw [BallotBox.has_iff] at hkr ⊢
      show k ∈ B.ReservedBox.Hashes.erase r1.MessageHash
      rw [hr1h, hasc.2.2.nodup.mem_erase_iff]
      exact ⟨hk, hkr⟩

/-- Witness of C2: a ballot for a payload that `AddVotingResult` put into `ReservedBox`. -/
theorem AddBallot_promotes_reserved_witness :
    Reachable (NewBallotBoxes.AddVotingResult (sampleResult "h1") .Reserved).1 ∧
    (NewBallotBoxes.AddVotingResult (sampleResult "h1") .Reserved).1.ReservedBox.Hashes = ["h1"] ∧
    ∃ B1, (NewBallotBoxes.AddVotingResult (sampleResult "h1") .Reserved).1.AddBallot
        (sampleBallot "n1" "h1" .INIT .YES) "id" = some (B1, false, none) ∧
      B1.ReservedBox.HasMessageByString (sampleBallot "n1" "h1" .INIT .YES).MessageHash = false ∧
      B1.VotingBox.HasMessageByString (sampleBallot "n1" "h1" .INIT .YES).MessageHash = true ∧
      (∀ k, k ≠ (sampleBallot "n1" "h1" .INIT .YES).MessageHash →
        (NewBallotBoxes.AddVotingResult (sampleResult "h1") .Reserved).1.ReservedBox.HasMessageByString
          k = true →
        B1.ReservedBox.HasMessageByString k = true) ∧
      B1.WaitingBox = (NewBallotBoxes.AddVotingResult (sampleResult "h1") .Reserved).1.WaitingBox :=
  ⟨ReachableBy.step (.addVotingResult (sampleResult "h1") .Reserved) ReachableBy.init
      trivial rfl,
    by decide,
    AddBallot_promotes_reserved (NewBallotBoxes.AddVotingResult (sampleResult "h1") .Reserved).1
      (ReachableBy.step (.addVotingResult (sampleResult "h1") .Reserved) ReachableBy.init
        trivial rfl)
      (sampleBallot "n1" "h1" .INIT .YES) "id" (by decide) (by decide)⟩

/-! ## Claims on the reachable states -/

/-- C5: in every state reachable from `NewBallotBoxes` through `AddBallot` and
`AddVotingResult` (called with one of the structure's own three boxes), every hash in
`WaitingBox`, `VotingBox` or `ReservedBox` is a key of `Results`. -/
theorem box_hashes_owned_by_results (B : BallotBoxes) (hB : ReachableOwn B) (k : String)
    (hk : k ∈ B.WaitingBox.Hashes ∨ k ∈ B.VotingBox.Hashes ∨ k ∈ B.ReservedBox.Hashes) :
    B.HasMessageByString k = true ∧ k ∈ B.Results.keys := by
  have h := ReachableBy.owned hB k hk
  refine ⟨h, ?_⟩
  unfold BallotBoxes.HasMessageByString at h
  exact AList.mem_keys.1 (AList.lookup_isSome.1 h)

/-- Witness of C5: the hash that two `AddVotingResult` calls put into two boxes. -/
theorem box_hashes_owned_by_results_witness :
    "h1" ∈ twiceAdded.WaitingBox.Hashes ∧
    twiceAdded.HasMessageByString "h1" = true ∧ "h1" ∈ twiceAdded.Results.keys :=
  ⟨by decide,
    box_hashes_owned_by_results twiceAdded
      (ReachableBy.step (.addVotingResult (sampleResult "h1") .Voting)
        (ReachableBy.step (.addVotingResult (sampleResult "h1") .Waiting) ReachableBy.init
          rfl rfl)
        rfl rfl)
      "h1" (Or.inl (by decide))⟩

/-- Counterexample to C6 as stated: `AddVotingResult` with `WaitingBox` and then with
`VotingBox`, both boxes of the structure itself, leaves one hash in both boxes. -/
theorem box_disjointness_fails :
    ReachableOwn twiceAdded ∧
      ¬ (∀ k, k ∈ twiceAdded.WaitingBox.Hashes → k ∉ twiceAdded.VotingBox.Hashes) :=
  ⟨ReachableBy.step (.addVotingResult (sampleResult "h1") .Voting)
      (ReachableBy.step (.addVotingResult (sampleResult "h1") .Waiting) ReachableBy.init
        rfl rfl)
      rfl rfl,
    fun h => h "h1" (by decide) (by decide)⟩

theorem BallotBoxes.apart_AddVotingResult (B : BallotBoxes) (vr : Sebak.VotingResult)
    (bb : BoxRef) (hB : B.Apart) (hg : Op.apart B (.addVotingResult vr bb) = true) :
    (B.AddVotingResult vr bb).1.Apart := by
  obtain ⟨hwv, hrw, hrv⟩ := hB
  cases bb with
  | Waiting =>
    simp only [Op.apart, Bool.and_eq_true, Bool.not_eq_true', BallotBox.has_false_iff] at hg
    refine ⟨?_, ?_, hrv⟩
    · intro k hk
      rcases (BallotBox.mem_add _ _ _).1 hk with hk | hk
      · rw [hk]; exact hg.1
      · exact hwv k hk
    · intro k hk hc
      rcases (BallotBox.mem_add _ _ _).1 hc with hc | hc
      · rw [hc] at hk; exact hg.2 hk
      · exact hrw k hk hc
  | Voting =>
    simp only [Op.apart, Bool.and_eq_true, Bool.not_eq_true', BallotBox.has_false_iff] at hg
    refine ⟨?_, hrw, ?_⟩
    · intro k hk hc
      rcases (BallotBox.mem_add _ _ _).1 hc with hc | hc
      · rw [hc] at hk; exact hg.1 hk
      · exact hwv k hk hc
    · intro k hk hc
      rcases (BallotBox.mem_add _ _ _).1 hc with hc | hc
      · rw [hc] at hk; exact hg.2 hk
      · exact hrv k hk hc
  | Reserved =>
    simp only [Op.apart, Bool.and_eq_true, Bool.not_eq_true', BallotBox.has_false_iff] at hg
    refine ⟨hwv, ?_, ?_⟩
    · intro k hk
      rcases (BallotBox.mem_add _ _ _).1 hk with hk | hk
      · rw [hk]; exact hg.1
      · exact hrw k hk
    · intro k hk
      rcases (BallotBox.mem_add _ _ _).1 hk with hk | hk
      · rw [hk]; exact hg.2
      · exact hrv k hk
  | Foreign => exact ⟨hwv, hrw, hrv⟩

theorem BallotBoxes.apart_step (B B1 : BallotBoxes) (op : Op) (hB : B.Apart)
    (hasc : B.Ascending) (hown : B.Owned) (hg : op.apart B = true)
    (h : B.step op = some B1) : B1.Apart := by
  cases op with
  | addVotingResult vr bb =>
    simp only [BallotBoxes.step, Option.some.injEq] at h
    rw [← h]
    exact B.apart_AddVotingResult vr bb hB hg
  | addBallot ballot id =>
    simp only [BallotBoxes.step, Option.map_eq_some'] at h
    obtain ⟨⟨B2, isNew, err⟩, hadd, hB2⟩ := h
    simp only at hB2
    subst hB2
    rcases B.AddBallot_shape B2 ballot id isNew err hadd with
      ⟨vr, bb, hvr, _, hnew, rfl⟩ | rfl | ⟨r1, _, _, rfl⟩ |
      ⟨r1, reserved, e, hr1, hres, hrm, rfl⟩
    · apply B.apart_AddVotingResult vr bb hB
      have hnot : ∀ k, B.HasMessageByString k = false →
          k ∉ B.WaitingBox.Hashes ∧ k ∉ B.VotingBox.Hashes ∧ k ∉ B.ReservedBox.Hashes := by
        intro k hk
        refine ⟨fun hc => ?_, fun hc => ?_, fun hc => ?_⟩
        · have := hown k (Or.inl hc); rw [hk] at this; exact Bool.noConfusion this
        · have := hown k (Or.inr (Or.inl hc)); rw [hk] at this; exact Bool.noConfusion this
        · have := hown k (Or.inr (Or.inr hc)); rw [hk] at this; exact Bool.noConfusion this
      obtain ⟨h1, h2, h3⟩ := hnot _ (hvr ▸ hnew)
      cases bb <;>
        simp only [Op.apart, Bool.and_eq_true, Bool.not_eq_true', BallotBox.has_false_iff] <;>
        first | exact ⟨h2, h3⟩ | exact ⟨h1, h3⟩ | exact ⟨h1, h2⟩
    · exact hB
    · exact hB
    · obtain ⟨hreserved, _⟩ := B.reserved_after_remove hasc ballot r1 reserved e hr1 hres hrm
      obtain ⟨hwv, hrw, hrv⟩ := hB
      have hin : ballot.MessageHash ∈ B.ReservedBox.Hashes := (BallotBox.has_iff _ _).1 hres
      subst hreserved
      refine ⟨?_, ?_, ?_⟩
      · intro k hk hc
        rcases (BallotBox.mem_add _ _ _).1 hc with hc | hc
        · rw [hc, hr1] at hk; exact hrw _ hin hk
        · exact hwv k hk hc
      · intro k hk
        exact hrw k (List.mem_of_mem_erase hk)
      · intro k hk hc
        have hk2 := (hasc.2.2.nodup.mem_erase_iff).1 hk
        rcases (BallotBox.mem_add _ _ _).1 hc with hc | hc
        · exact hk2.1 (hc.trans hr1)
        · exact hrv k hk2.2 hc

/-- C6, amended: in every state reachable from `NewBallotBoxes` through `AddBallot` and
`AddVotingResult` called with one of the structure's own three boxes for a hash that neither
of the other two boxes holds, `WaitingBox` and `VotingBox` have no hash in common, and
`ReservedBox` has no hash in common with either of them. -/
theorem box_disjointness (B : BallotBoxes) (hB : ReachableApart B) :
    (∀ k, k ∈ B.WaitingBox.Hashes → k ∉ B.VotingBox.Hashes) ∧
    (∀ k, k ∈ B.ReservedBox.Hashes → k ∉ B.WaitingBox.Hashes) ∧
    (∀ k, k ∈ B.ReservedBox.Hashes → k ∉ B.VotingBox.Hashes) := by
  have key : B.Apart := by
    unfold ReachableApart at hB
    induction hB with
    | init =>
      refine ⟨?_, ?_, ?_⟩ <;> intro k hk <;> simp [NewBallotBoxes, NewBallotBox] at hk
    | step op hprev hok hstep ih =>
      exact BallotBoxes.apart_step _ _ op ih (ReachableBy.ascending hprev)
        (ReachableBy.owned hprev) hok.2 hstep
  exact key

/-- Witness of C6, amended: a payload put into `ReservedBox` and a second one into
`WaitingBox`. -/
theorem box_disjointness_witness :
    ReachableApart twoPayloads ∧
    twoPayloads.WaitingBox.Hashes = ["h2"] ∧ twoPayloads.ReservedBox.Hashes = ["h1"] ∧
    (∀ k, k ∈ twoPayloads.WaitingBox.Hashes → k ∉ twoPayloads.VotingBox.Hashes) ∧
    (∀ k, k ∈ twoPayloads.ReservedBox.Hashes → k ∉ twoPayloads.WaitingBox.Hashes) ∧
    (∀ k, k ∈ twoPayloads.ReservedBox.Hashes → k ∉ twoPayloads.VotingBox.Hashes) :=
  ⟨ReachableBy.step (.addVotingResult (sampleResult "h2") .Waiting)
      (ReachableBy.step (.addVotingResult (sampleResult "h1") .Reserved) ReachableBy.init
        ⟨rfl, rfl⟩ rfl)
      ⟨rfl, rfl⟩ rfl,
    by decide, by decide,
    box_disjointness twoPayloads
      (ReachableBy.step (.addVotingResult (sampleResult "h2") .Waiting)
        (ReachableBy.step (.addVotingResult (sampleResult "h1") .Reserved) ReachableBy.init
          ⟨rfl, rfl⟩ rfl)
        ⟨rfl, rfl⟩ rfl)⟩

/-! ## The tally -/

theorem count_entries_eq_count_keys (hole : VotingHole) :
    ∀ l : List (Sigma fun _ : String => VotingHole), l.NodupKeys →
      (l.filter (fun e => e.2 = hole)).length =
        (l.keys.filter (fun k => l.dlookup k = some hole)).length
  | [], _ => rfl
  | ⟨a, b⟩ :: l, hnd => by
    rw [List.nodupKeys_cons] at hnd
    have ih := count_entries_eq_count_keys hole l hnd.2
    have hrest : l.keys.filter
          (fun k => (((⟨a, b⟩ : Sigma fun _ : String => VotingHole) :: l).dlookup k = some hole)) =
        l.keys.filter (fun k => l.dlookup k = some hole) := by
      apply List.filter_congr
      intro k hk
      have hka : k ≠ a := fun e => hnd.1 (e ▸ hk)
      rw [List.dlookup_cons_ne l (⟨a, b⟩ : Sigma fun _ : String => VotingHole) hka]
    rw [List.keys_cons, List.filter_cons, List.filter_cons, List.dlookup_cons_eq, hrest]
    by_cases hb : b = hole
    · simp [hb, ih]
    · simp [hb, ih]

/-- The scan of the entries counts the validators `v` with `V[v] == hole`. -/
theorem Votes.count_eq (v : Votes) (hole : VotingHole) :
    v.count hole = (v.keys.filter (fun k => v.lookup k = some hole)).length :=
  count_entries_eq_count_keys hole v.entries v.nodupKeys

theorem Votes.size_eq (v : Votes) : v.size = v.keys.length := by
  simp [Votes.size, AList.keys, List.keys]

/-- C7: `CheckThreshold` for state NONE returns `(NOTYET, false)`; for every other state, with
`q` the quorum of that state, `V` the votes recorded for it and `yes`, `no`, `exp` the numbers
of validators whose vote in `V` is YES, NO, EXPIRED, it returns `ended` exactly when
`yes ≥ q` or `no + exp ≥ q` or `|V| = validators`, and the outcome YES if `yes ≥ q`, else NO
if `no + exp ≥ q`, else NOTYET.  Five YES ballots at INIT with a 100% threshold end the state
with 5 validators and do not end it with 10. -/
theorem CheckThreshold_reference (r : VotingResult) (policy : DefaultVotingThresholdPolicy)
    (state : BallotState) :
    r.CheckThreshold .NONE policy = (.NOTYET, false) ∧
    (state = .NONE ∨
      (((r.CheckThreshold state policy).2 = true ↔
          (policy.quorum state ≤
              ((r.votes state).keys.filter
                (fun k => (r.votes state).lookup k = some .YES)).length ∨
            policy.quorum state ≤
              ((r.votes state).keys.filter
                (fun k => (r.votes state).lookup k = some .NO)).length +
              ((r.votes state).keys.filter
                (fun k => (r.votes state).lookup k = some .EXPIRED)).length ∨
            (r.votes state).keys.length = policy.Validators)) ∧
        (r.CheckThreshold state policy).1 =
          if policy.quorum state ≤
              ((r.votes state).keys.filter
                (fun k => (r.votes state).lookup k = some .YES)).length then VotingHole.YES
          else if policy.quorum state ≤
              ((r.votes state).keys.filter
                (fun k => (r.votes state).lookup k = some .NO)).length +
              ((r.votes state).keys.filter
                (fun k => (r.votes state).lookup k = some .EXPIRED)).length then VotingHole.NO
          else VotingHole.NOTYET)) ∧
    fiveInit.CheckThreshold .INIT ((NewDefaultVotingThresholdPolicy 100 100 100).SetValidators 5) =
      (.YES, true) ∧
    (fiveInit.CheckThreshold .INIT
      ((NewDefaultVotingThresholdPolicy 100 100 100).SetValidators 10)).2 = false ∧
    (fiveInit.CheckThreshold .NONE
      ((NewDefaultVotingThresholdPolicy 100 100 100).SetValidators 5)).2 = false := by
  refine ⟨rfl, ?_, by decide, by decide, by decide⟩
  by_cases hs : state = .NONE
  · exact Or.inl hs
  · right
    unfold VotingResult.CheckThreshold
    simp only [hs, if_false, Votes.count_eq, Votes.size_eq, Bool.or_eq_true, decide_eq_true_eq,
      or_assoc, and_self]

/-- C8: `MakeResult` returns the `CheckThreshold` outcome of the first state in the order
ACCEPT, SIGN, INIT whose `CheckThreshold` reports `ended = true`, together with that state and
`ended = true`; if no state is ended it returns `(NOTYET, INIT, false)`.  With five YES
ballots at INIT and at ACCEPT both states are ended and the returned state is ACCEPT. -/
theorem MakeResult_highest_ended (r : VotingResult) (policy : DefaultVotingThresholdPolicy) :
    r.MakeResult policy =
      (if (r.CheckThreshold .ACCEPT policy).2 = true then
        ((r.CheckThreshold .ACCEPT policy).1, BallotState.ACCEPT, true)
      else if (r.CheckThreshold .SIGN policy).2 = true then
        ((r.CheckThreshold .SIGN policy).1, BallotState.SIGN, true)
      else if (r.CheckThreshold .INIT policy).2 = true then
        ((r.CheckThreshold .INIT policy).1, BallotState.INIT, true)
      else (VotingHole.NOTYET, BallotState.INIT, false)) ∧
    (fiveInitAccept.CheckThreshold .ACCEPT
      ((NewDefaultVotingThresholdPolicy 100 50 50).SetValidators 5)).2 = true ∧
    (fiveInitAccept.CheckThreshold .INIT
      ((NewDefaultVotingThresholdPolicy 100 50 50).SetValidators 5)).2 = true ∧
    fiveInitAccept.MakeResult ((NewDefaultVotingThresholdPolicy 100 50 50).SetValidators 5) =
      (.YES, .ACCEPT, true) ∧
    fiveInit.MakeResult ((NewDefaultVotingThresholdPolicy 100 30 30).SetValidators 5) =
      (.YES, .INIT, true) ∧
    fiveInit.MakeResult ((NewDefaultVotingThresholdPolicy 100 50 50).SetValidators 105) =
      (.NOTYET, .INIT, false) := by
  refine ⟨?_, by decide, by decide, by decide, by decide, by decide⟩
  unfold VotingResult.MakeResult
  by_cases ha : (r.CheckThreshold .ACCEPT policy).2 = true
  · simp [List.find?, ha]
  · by_cases hs : (r.CheckThreshold .SIGN policy).2 = true
    · simp [List.find?, ha, hs]
    · by_cases hi : (r.CheckThreshold .INIT policy).2 = true
      · simp [List.find?, ha, hs, hi]
      · simp [List.find?, ha, hs, hi]

/-- C9: `VotingResult.Add` returns `HashDoesNotMatch` exactly when the ballot's message hash
differs from the result's, and then leaves the result unchanged; otherwise it returns nil,
sets `voted[b.state][b.node_key]` to the ballot's vote, and sets the state to the maximum of
the old state and the ballot's state in the order INIT < SIGN < ACCEPT < ALL-CONFIRM. -/
theorem Add_rejects_foreign_ballots (r : VotingResult) (b : Ballot) :
    ((r.Add b).2 = some .ErrorHashDoesNotMatch ↔ b.MessageHash ≠ r.MessageHash) ∧
    ((r.Add b).2 = none ↔ b.MessageHash = r.MessageHash) ∧
    (if b.MessageHash ≠ r.MessageHash then (r.Add b).1 = r
     else
      ((r.Add b).1.votes b.State).lookup b.B.NodeKey = some b.B.VotingHole ∧
      (r.Add b).1.State.rank = Nat.max r.State.rank b.State.rank ∧
      ((r.Add b).1.State = r.State ∨ (r.Add b).1.State = b.State) ∧
      (r.Add b).1.MessageHash = r.MessageHash ∧ (r.Add b).1.ID = r.ID) ∧
    ((tally (sampleBallot "n0" "h0" .INIT .YES) []).Add
        (sampleBallot "n1" "h1" .INIT .YES)).2 = some .ErrorHashDoesNotMatch ∧
    ((tally (sampleBallot "n0" "h0" .INIT .YES) []).Add
        (sampleBallot "n1" "h0" .INIT .YES)).2 = none := by
  refine ⟨?_, ?_, ?_, by decide, by decide⟩
  · unfold VotingResult.Add
    by_cases h : b.MessageHash = r.MessageHash
    · simp [h]
    · simp [h]
  · unfold VotingResult.Add
    by_cases h : b.MessageHash = r.MessageHash
    · simp [h]
    · simp [h]
  · by_cases h : b.MessageHash = r.MessageHash
    · rw [if_neg (not_not.2 h)]
      have hadd : r.Add b = ({ r with
          State := r.State.max b.State
          Voted := r.Voted.insert b.State
            ((r.votes b.State).insert b.B.NodeKey b.B.VotingHole) }, none) := by
        unfold VotingResult.Add
        rw [if_neg (not_not.2 h)]
      rw [hadd]
      refine ⟨?_, ?_, ?_, rfl, rfl⟩
      · simp only [VotingResult.votes, AList.lookup_insert, Option.getD_some]
      · show (r.State.max b.State).rank = Nat.max r.State.rank b.State.rank
        unfold BallotState.max
        by_cases hlt : r.State.rank < b.State.rank
        · rw [if_pos hlt]; exact (Nat.max_eq_right (Nat.le_of_lt hlt)).symm
        · rw [if_neg hlt]; exact (Nat.max_eq_left (Nat.le_of_not_lt hlt)).symm
      · show r.State.max b.State = r.State ∨ r.State.max b.State = b.State
        unfold BallotState.max
        by_cases hlt : r.State.rank < b.State.rank
        · rw [if_pos hlt]; exact Or.inr rfl
        · rw [if_neg hlt]; exact Or.inl rfl
    · rw [if_pos h]
      unfold VotingResult.Add
      rw [if_pos h]

theorem count_three_le (l : List (Sigma fun _ : String => VotingHole)) :
    (l.filter (fun e => e.2 = VotingHole.YES)).length +
      (l.filter (fun e => e.2 = VotingHole.NO)).length +
      (l.filter (fun e => e.2 = VotingHole.EXPIRED)).length ≤ l.length := by
  induction l with
  | nil => simp
  | cons e l ih =>
    obtain ⟨a, b⟩ := e
    cases b <;> simp [List.filter_cons] <;> omega

/-- C10: for a percentage `p` with `1 ≤ p ≤ 100` and `n ≥ 1` validators the quorum `q` is the
ceiling of `p·n/100`; a state that holds exactly `q` YES votes and no other votes yields
`CheckThreshold = (YES, ended = true)`, and a state that holds exactly `q − 1` YES votes and no
other votes yields `ended = false`. -/
theorem quorum_boundary (r r1 : VotingResult) (policy : DefaultVotingThresholdPolicy)
    (state : BallotState)
    (hp1 : 1 ≤ policy.percentage state) (hp2 : policy.percentage state ≤ 100)
    (hn : 1 ≤ policy.Validators)
    (hyes : (r.votes state).count .YES = policy.quorum state)
    (hsize : (r.votes state).size = policy.quorum state)
    (hyes1 : (r1.votes state).count .YES = policy.quorum state - 1)
    (hsize1 : (r1.votes state).size = policy.quorum state - 1) :
    (policy.percentage state * policy.Validators ≤ 100 * policy.quorum state ∧
      100 * (policy.quorum state - 1) < policy.percentage state * policy.Validators) ∧
    r.CheckThreshold state policy = (.YES, true) ∧
    (r1.CheckThreshold state policy).2 = false := by
  have hs : state ≠ .NONE := by
    intro h
    subst h
    simp [DefaultVotingThresholdPolicy.percentage] at hp1
  have hv : policy.Validators = policy.validators := rfl
  rw [hv] at hn ⊢
  have hq : policy.quorum state = (policy.percentage state * policy.validators + 99) / 100 := rfl
  have hpos : 1 ≤ policy.percentage state * policy.validators := Nat.mul_le_mul hp1 hn
  have hle : policy.percentage state * policy.validators ≤ 100 * policy.validators :=
    Nat.mul_le_mul_right _ hp2
  generalize policy.percentage state * policy.validators = pn at hq hpos hle ⊢
  have hq1 : 1 ≤ policy.quorum state := by rw [hq]; omega
  have hqn : policy.quorum state ≤ policy.validators := by rw [hq]; omega
  have hthree : (r1.votes state).count .YES + (r1.votes state).count .NO +
      (r1.votes state).count .EXPIRED ≤ (r1.votes state).size :=
    count_three_le (r1.votes state).entries
  refine ⟨⟨by rw [hq]; omega, by rw [hq]; omega⟩, ?_, ?_⟩
  · unfold VotingResult.CheckThreshold
    simp only [hs, if_false, hyes, le_refl, decide_True, Bool.true_or, if_true]
  · unfold VotingResult.CheckThreshold
    have h1 : ¬ policy.quorum state ≤ (r1.votes state).count .YES := by omega
    have h2 : ¬ policy.quorum state ≤
        (r1.votes state).count .NO + (r1.votes state).count .EXPIRED := by omega
    have h3 : ¬ (r1.votes state).size = policy.Validators := by rw [hv]; omega
    simp only [hs, if_false, h1, h2, h3, decide_False, Bool.or_self]

/-- Witness of C10: a 100% threshold over 5 validators, with five and with four YES votes. -/
theorem quorum_boundary_witness :
    ((NewDefaultVotingThresholdPolicy 100 100 100).SetValidators 5).quorum .INIT = 5 ∧
    fiveInit.CheckThreshold .INIT ((NewDefaultVotingThresholdPolicy 100 100 100).SetValidators 5) =
      (.YES, true) ∧
    (fourInit.CheckThreshold .INIT
      ((NewDefaultVotingThresholdPolicy 100 100 100).SetValidators 5)).2 = false :=
  ⟨by decide,
    (quorum_boundary fiveInit fourInit
      ((NewDefaultVotingThresholdPolicy 100 100 100).SetValidators 5) .INIT
      (by decide) (by decide) (by decide) (by decide) (by decide) (by decide) (by decide)).2⟩

/-! ## Claims on a single box -/

theorem sorted_of_stringLess {a : List String}
    (h : a.Pairwise (fun x y => stringLess x y = true)) : a.Sorted (· < ·) :=
  List.Pairwise.imp (fun {x y} hxy => (stringLess_iff_lt x y).1 hxy) h

/-- C13: `BallotBox.AddVotingResult` returns `ErrorVotingResultAlreadyExists` and leaves
`Hashes` unchanged exactly when the hash of the voting result is already in `Hashes`;
otherwise it returns nil and the new `Hashes` is the ascending rearrangement of the old
`Hashes` plus the new hash, one element longer. -/
theorem BallotBox.AddVotingResult_fails_on_duplicates (b : BallotBox) (vr : VotingResult) :
    ((b.AddVotingResult vr).2 = some .ErrorVotingResultAlreadyExists ↔
      vr.MessageHash ∈ b.Hashes) ∧
    ((b.AddVotingResult vr).2 = none ↔ vr.MessageHash ∉ b.Hashes) ∧
    (vr.MessageHash ∈ b.Hashes →
      b.AddVotingResult vr = (b, some .ErrorVotingResultAlreadyExists)) ∧
    (vr.MessageHash ∉ b.Hashes →
      (b.AddVotingResult vr).1.Hashes.Sorted (· ≤ ·) ∧
      (b.AddVotingResult vr).1.Hashes.Perm (b.Hashes ++ [vr.MessageHash]) ∧
      (b.AddVotingResult vr).1.Hashes.length = b.Hashes.length + 1) := by
  by_cases h : vr.MessageHash ∈ b.Hashes
  · have hhas := (b.has_iff _).2 h
    have hadd : b.AddVotingResult vr = (b, some .ErrorVotingResultAlreadyExists) := by
      unfold BallotBox.AddVotingResult
      rw [if_pos hhas]
    rw [hadd]
    exact ⟨⟨fun _ => h, fun _ => rfl⟩, ⟨fun hc => by simp at hc, fun hc => absurd h hc⟩,
      fun _ => rfl, fun hc => absurd h hc⟩
  · have hhas : ¬ b.HasMessageByString vr.MessageHash = true := fun hc => h ((b.has_iff _).1 hc)
    have hadd : b.AddVotingResult vr =
        ({ Hashes := sortStrings (b.Hashes ++ [vr.MessageHash]) }, none) := by
      unfold BallotBox.AddVotingResult
      rw [if_neg hhas]
    rw [hadd]
    refine ⟨⟨fun hc => by simp at hc, fun hc => absurd hc h⟩, ⟨fun _ => h, fun _ => rfl⟩,
      fun hc => absurd hc h, fun _ => ⟨sortStrings_sorted _, sortStrings_perm _, ?_⟩⟩
    rw [(sortStrings_perm _).length_eq, List.length_append, List.length_singleton]

/-- C14: on a box whose `Hashes` is ascending without duplicates, `RemoveVotingResult`
returns `ErrorVotingResultNotFound` and leaves `Hashes` unchanged exactly when the hash is
not in `Hashes`; otherwise it returns nil, the index `sort.SearchStrings` computes is in
bounds and points at the hash, and the new `Hashes` is the old list with that one element
erased, every other hash and the order kept. -/
theorem BallotBox.RemoveVotingResult_exact (b : BallotBox) (vr : VotingResult)
    (hs : b.Hashes.Sorted (· < ·)) :
    (∃ r, b.RemoveVotingResult vr = some r ∧
      (r.2 = some .ErrorVotingResultNotFound ↔ vr.MessageHash ∉ b.Hashes) ∧
      (r.2 = none ↔ vr.MessageHash ∈ b.Hashes)) ∧
    (vr.MessageHash ∉ b.Hashes →
      b.RemoveVotingResult vr = some (b, some .ErrorVotingResultNotFound)) ∧
    (vr.MessageHash ∈ b.Hashes →
      ∃ hlt : SearchStrings b.Hashes vr.MessageHash < b.Hashes.length,
        b.Hashes.get ⟨SearchStrings b.Hashes vr.MessageHash, hlt⟩ = vr.MessageHash ∧
        b.RemoveVotingResult vr =
          some ({ Hashes := b.Hashes.eraseIdx (SearchStrings b.Hashes vr.MessageHash) }, none) ∧
        b.Hashes.eraseIdx (SearchStrings b.Hashes vr.MessageHash) =
          b.Hashes.erase vr.MessageHash ∧
        (∀ k, k ∈ b.Hashes.erase vr.MessageHash ↔ k ≠ vr.MessageHash ∧ k ∈ b.Hashes) ∧
        (b.Hashes.erase vr.MessageHash).Sublist b.Hashes ∧
        (b.Hashes.erase vr.MessageHash).length + 1 = b.Hashes.length) := by
  have hin : vr.MessageHash ∈ b.Hashes →
      ∃ hlt : SearchStrings b.Hashes vr.MessageHash < b.Hashes.length,
        b.Hashes.get ⟨SearchStrings b.Hashes vr.MessageHash, hlt⟩ = vr.MessageHash ∧
        b.RemoveVotingResult vr =
          some ({ Hashes := b.Hashes.eraseIdx (SearchStrings b.Hashes vr.MessageHash) }, none) ∧
        b.Hashes.eraseIdx (SearchStrings b.Hashes vr.MessageHash) =
          b.Hashes.erase vr.MessageHash ∧
        (∀ k, k ∈ b.Hashes.erase vr.MessageHash ↔ k ≠ vr.MessageHash ∧ k ∈ b.Hashes) ∧
        (b.Hashes.erase vr.MessageHash).Sublist b.Hashes ∧
        (b.Hashes.erase vr.MessageHash).length + 1 = b.Hashes.length := by
    intro h
    obtain ⟨hlt, hget⟩ := SearchStrings_spec hs h
    have hidx : b.Hashes.eraseIdx (SearchStrings b.Hashes vr.MessageHash) =
        b.Hashes.erase vr.MessageHash := by
      have := List.Nodup.erase_getElem hs.nodup (SearchStrings b.Hashes vr.MessageHash) hlt
      have hget1 : b.Hashes[SearchStrings b.Hashes vr.MessageHash] = vr.MessageHash := hget
      rw [hget1] at this
      exact this.symm
    refine ⟨hlt, hget, ?_, hidx, fun k => hs.nodup.mem_erase_iff, List.erase_sublist _ _, ?_⟩
    · rw [BallotBox.remove_of_mem b vr hs h, hidx]
    · rw [List.length_erase_of_mem h]
      have : 0 < b.Hashes.length := List.length_pos_of_mem h
      omega
  have hout : vr.MessageHash ∉ b.Hashes →
      b.RemoveVotingResult vr = some (b, some .ErrorVotingResultNotFound) := by
    intro h
    have hhas : b.HasMessageByString vr.MessageHash = false := (b.has_false_iff _).2 h
    unfold BallotBox.RemoveVotingResult
    simp only [hhas, Bool.not_false, if_true]
  refine ⟨?_, hout, hin⟩
  by_cases h : vr.MessageHash ∈ b.Hashes
  · obtain ⟨_, _, hrm, _⟩ := hin h
    exact ⟨_, hrm, ⟨fun hc => by simp at hc, fun hc => absurd h hc⟩, ⟨fun _ => h, fun _ => rfl⟩⟩
  · exact ⟨_, hout h, ⟨fun _ => h, fun _ => rfl⟩, ⟨fun hc => by simp at hc, fun hc => absurd hc h⟩⟩

/-- Witness of C14: the third of four hashes is removed. -/
theorem BallotBox.RemoveVotingResult_exact_witness :
    SearchStrings fourHashes.Hashes "b" = 2 ∧
    fourHashes.RemoveVotingResult (sampleResult "b") = some ({ Hashes := ["a", "ab", "c"] }, none) ∧
    fourHashes.RemoveVotingResult (sampleResult "d") =
      some (fourHashes, some .ErrorVotingResultNotFound) :=
  ⟨by decide, by decide,
    (BallotBox.RemoveVotingResult_exact fourHashes (sampleResult "d")
      (sorted_of_stringLess (by decide))).2.1 (by decide)⟩

theorem BallotBox.sorted_step (b b1 : BallotBox) (op : BoxOp) (hs : b.Hashes.Sorted (· < ·))
    (h : b.step op = some b1) : b1.Hashes.Sorted (· < ·) := by
  cases op with
  | add vr =>
    simp only [BallotBox.step, Option.some.injEq] at h
    rw [← h]
    exact b.sorted_add vr hs
  | remove vr =>
    simp only [BallotBox.step, Option.map_eq_some'] at h
    obtain ⟨⟨b2, e⟩, hrm, hb2⟩ := h
    simp only at hb2
    subst hb2
    by_cases hm : vr.MessageHash ∈ b.Hashes
    · rw [BallotBox.remove_of_mem b vr hs hm] at hrm
      simp only [Option.some.injEq, Prod.mk.injEq] at hrm
      rw [← hrm.1]
      exact List.Pairwise.sublist (List.erase_sublist _ _) hs
    · have hhas : b.HasMessageByString vr.MessageHash = false := (b.has_false_iff _).2 hm
      unfold BallotBox.RemoveVotingResult at hrm
      simp only [hhas, Bool.not_false, if_true, Option.some.injEq, Prod.mk.injEq] at hrm
      rw [← hrm.1]
      exact hs

theorem BallotBox.step_total (b : BallotBox) (op : BoxOp) (hs : b.Hashes.Sorted (· < ·)) :
    ∃ b1, b.step op = some b1 := by
  cases op with
  | add vr => exact ⟨_, rfl⟩
  | remove vr =>
    by_cases hm : vr.MessageHash ∈ b.Hashes
    · refine ⟨{ Hashes := b.Hashes.erase vr.MessageHash }, ?_⟩
      simp only [BallotBox.step, BallotBox.remove_of_mem b vr hs hm, Option.map_some']
    · have hhas : b.HasMessageByString vr.MessageHash = false := (b.has_false_iff _).2 hm
      refine ⟨b, ?_⟩
      unfold BallotBox.step BallotBox.RemoveVotingResult
      simp only [hhas, Bool.not_false, if_true, Option.map_some']

/-- C15: in every box reachable from `NewBallotBox` by `AddVotingResult` and
`RemoveVotingResult` calls, successful or failing, `Hashes` is strictly ascending in the
lexicographic order, whatever the order in which the hashes arrived; and no call on such a
box panics. -/
theorem BallotBox.order_is_lexicographic (b : BallotBox) (hb : BallotBox.Reachable b) :
    b.Hashes.Sorted (· < ·) ∧ b.Hashes.Pairwise (fun x y => stringLess x y = true) ∧
      ∀ op, ∃ b1, b.step op = some b1 := by
  have hs : b.Hashes.Sorted (· < ·) := by
    induction hb with
    | init => exact List.sorted_nil
    | step op _ hstep ih => exact BallotBox.sorted_step _ _ op ih hstep
  exact ⟨hs, List.Pairwise.imp (fun {x y} hxy => (stringLess_iff_lt x y).2 hxy) hs,
    fun op => b.step_total op hs⟩

/-- Witness of C15: the hashes arrive as "c", "a", "b", "a" and "c" is removed again. -/
theorem BallotBox.order_is_lexicographic_witness :
    BallotBox.Reachable { Hashes := ["a", "b"] } ∧
    (({ Hashes := ["a", "b"] } : BallotBox).Hashes.Sorted (· < ·) ∧
      ({ Hashes := ["a", "b"] } : BallotBox).Hashes.Pairwise
        (fun x y => stringLess x y = true) ∧
      ∀ op, ∃ b1, ({ Hashes := ["a", "b"] } : BallotBox).step op = some b1) :=
  ⟨BallotBox.Reachable.step (.remove (sampleResult "c"))
      (BallotBox.Reachable.step (.add (sampleResult "a"))
        (BallotBox.Reachable.step (.add (sampleResult "b"))
          (BallotBox.Reachable.step (.add (sampleResult "a"))
            (BallotBox.Reachable.step (.add (sampleResult "c")) BallotBox.Reachable.init rfl)
            rfl)
          rfl)
        rfl)
      rfl,
    BallotBox.order_is_lexicographic { Hashes := ["a", "b"] }
      (BallotBox.Reachable.step (.remove (sampleResult "c"))
        (BallotBox.Reachable.step (.add (sampleResult "a"))
          (BallotBox.Reachable.step (.add (sampleResult "b"))
            (BallotBox.Reachable.step (.add (sampleResult "a"))
              (BallotBox.Reachable.step (.add (sampleResult "c")) BallotBox.Reachable.init rfl)
              rfl)
            rfl)
          rfl)
        rfl)⟩

/-! ## Votes under `Add` -/

theorem count_kerase (hole : VotingHole) (a : String) :
    ∀ l : List (Sigma fun _ : String => VotingHole),
      ((l.kerase a).filter (fun e => e.2 = hole)).length +
          (if l.dlookup a = some hole then 1 else 0) =
        (l.filter (fun e => e.2 = hole)).length
  | [] => by simp
  | ⟨k, v⟩ :: l => by
    have ih := count_kerase hole a l
    by_cases hk : a = k
    · subst hk
      rw [List.kerase_cons_eq (s := (⟨a, v⟩ : Sigma fun _ : String => VotingHole)) rfl,
        List.dlookup_cons_eq, List.filter_cons]
      by_cases hv : v = hole
      · simp [hv]
      · simp [hv]
    · rw [List.kerase_cons_ne hk,
        List.dlookup_cons_ne l (⟨k, v⟩ : Sigma fun _ : String => VotingHole) hk,
        List.filter_cons, List.filter_cons]
      by_cases hv : v = hole
      · simp only [hv, decide_True, if_true, List.length_cons]
        omega
      · simp only [hv, decide_False, Bool.false_eq_true, if_false]
        exact ih

theorem length_kerase_add (a : String) :
    ∀ l : List (Sigma fun _ : String => VotingHole),
      (l.kerase a).length + (if (l.dlookup a).isSome then 1 else 0) = l.length
  | [] => by simp
  | ⟨k, v⟩ :: l => by
    have ih := length_kerase_add a l
    by_cases hk : a = k
    · subst hk
      rw [List.kerase_cons_eq (s := (⟨a, v⟩ : Sigma fun _ : String => VotingHole)) rfl,
        List.dlookup_cons_eq]
      simp
    · rw [List.kerase_cons_ne hk,
        List.dlookup_cons_ne l (⟨k, v⟩ : Sigma fun _ : String => VotingHole) hk,
        List.length_cons, List.length_cons]
      omega

/-- The tally of a vote after validator `a` has voted `b`: the votes of the others, plus one
where `b` is the vote counted. -/
theorem Votes.count_insert (v : Votes) (a : String) (b hole : VotingHole) :
    Votes.count (v.insert a b) hole = Votes.count (v.erase a) hole + (if b = hole then 1 else 0) := by
  unfold Votes.count
  rw [AList.insert_entries, List.filter_cons]
  by_cases hb : b = hole
  · simp only [hb, decide_True, if_true, List.length_cons]
    rfl
  · simp only [hb, decide_False, Bool.false_eq_true, if_false, Nat.add_zero]
    rfl

theorem Votes.count_erase (v : Votes) (a : String) (hole : VotingHole) :
    Votes.count (v.erase a) hole + (if v.lookup a = some hole then 1 else 0) = v.count hole :=
  count_kerase hole a v.entries

theorem Votes.size_insert (v : Votes) (a : String) (b : VotingHole) :
    Votes.size (v.insert a b) + (if (v.lookup a).isSome then 1 else 0) = v.size + 1 := by
  have h := length_kerase_add a v.entries
  unfold Votes.size
  rw [AList.insert_entries, List.length_cons]
  unfold AList.lookup
  omega

/-- The votes of every state after a successful `Add`. -/
theorem VotingResult.votes_Add (r : VotingResult) (b : Ballot)
    (h : b.MessageHash = r.MessageHash) (s : BallotState) :
    (r.Add b).1.votes s =
      if s = b.State then (r.votes s).insert b.B.NodeKey b.B.VotingHole else r.votes s := by
  have hadd : r.Add b = ({ r with
      State := r.State.max b.State
      Voted := r.Voted.insert b.State
        ((r.votes b.State).insert b.B.NodeKey b.B.VotingHole) }, none) := by
    unfold VotingResult.Add
    rw [if_neg (not_not.2 h)]
  rw [hadd]
  by_cases hs : s = b.State
  · subst hs
    rw [if_pos rfl]
    simp only [VotingResult.votes, AList.lookup_insert, Option.getD_some]
  · rw [if_neg hs]
    simp only [VotingResult.votes, AList.lookup_insert_ne hs]

theorem VotingResult.hash_Add (r : VotingResult) (b : Ballot) :
    (r.Add b).1.MessageHash = r.MessageHash := by
  unfold VotingResult.Add
  by_cases h : b.MessageHash = r.MessageHash
  · rw [if_neg (not_not.2 h)]
  · rw [if_pos h]

/-- C11: a second ballot with the same `node_key` and state overwrites the first vote: the
number of votes of the state does not grow, the validator is among the voters once and is
counted once in every tally; the identical ballot twice gives the same `voted[state]` as
once; YES followed by NO leaves the validator's vote NO and the validator outside the YES
count. -/
theorem Add_one_vote_per_validator (r : VotingResult) (b1 b2 : Ballot)
    (h1 : b1.MessageHash = r.MessageHash) (h2 : b2.MessageHash = r.MessageHash)
    (hn : b2.B.NodeKey = b1.B.NodeKey) (hs : b2.State = b1.State) :
    (((r.Add b1).1.Add b2).1.votes b1.State).size = ((r.Add b1).1.votes b1.State).size ∧
    (((r.Add b1).1.Add b2).1.votes b1.State).lookup b1.B.NodeKey = some b2.B.VotingHole ∧
    (((r.Add b1).1.Add b2).1.votes b1.State).keys.count b1.B.NodeKey = 1 ∧
    (∀ hole, (((r.Add b1).1.Add b2).1.votes b1.State).count hole =
      Votes.count ((r.votes b1.State).erase b1.B.NodeKey) hole +
        (if b2.B.VotingHole = hole then 1 else 0)) ∧
    (b2.B.VotingHole = b1.B.VotingHole →
      ((r.Add b1).1.Add b2).1.votes b1.State = (r.Add b1).1.votes b1.State) ∧
    (b1.B.VotingHole = .YES → b2.B.VotingHole = .NO →
      (((r.Add b1).1.Add b2).1.votes b1.State).lookup b1.B.NodeKey = some .NO ∧
      (((r.Add b1).1.Add b2).1.votes b1.State).count .YES =
        Votes.count ((r.votes b1.State).erase b1.B.NodeKey) .YES) ∧
    ((replayed.votes .INIT).lookup "n1" = some .NO ∧ (replayed.votes .INIT).count .YES = 0 ∧
      (replayed.votes .INIT).size = 1) := by
  have h2' : b2.MessageHash = (r.Add b1).1.MessageHash := by rw [VotingResult.hash_Add, h2]
  have hv1 : (r.Add b1).1.votes b1.State =
      (r.votes b1.State).insert b1.B.NodeKey b1.B.VotingHole := by
    rw [VotingResult.votes_Add r b1 h1, if_pos rfl]
  have hv2 : ((r.Add b1).1.Add b2).1.votes b1.State =
      (r.votes b1.State).insert b1.B.NodeKey b2.B.VotingHole := by
    rw [VotingResult.votes_Add _ b2 h2', if_pos hs.symm, hv1, hn, AList.insert_insert]
  have hcount : ∀ hole, (((r.Add b1).1.Add b2).1.votes b1.State).count hole =
      Votes.count ((r.votes b1.State).erase b1.B.NodeKey) hole +
        (if b2.B.VotingHole = hole then 1 else 0) := by
    intro hole
    rw [hv2, Votes.count_insert]
  refine ⟨?_, ?_, ?_, hcount, ?_, ?_, by decide, by decide, by decide⟩
  · rw [hv2, hv1]
    have e1 := Votes.size_insert (r.votes b1.State) b1.B.NodeKey b1.B.VotingHole
    have e2 := Votes.size_insert (r.votes b1.State) b1.B.NodeKey b2.B.VotingHole
    omega
  · rw [hv2, AList.lookup_insert]
  · rw [hv2]
    exact List.count_eq_one_of_mem (AList.keys_nodup _)
      (AList.mem_keys.1 ((AList.mem_insert _).2 (Or.inl rfl)))
  · intro hv
    rw [hv2, hv1, hv]
  · intro _ hno
    refine ⟨by rw [hv2, AList.lookup_insert, hno], ?_⟩
    rw [hcount, hno]
    simp

/-- Witness of C11: validator `n1` votes YES and then NO on the payload of the result. -/
theorem Add_one_vote_per_validator_witness :
    ((((sampleResult "h1").Add (sampleBallot "n1" "h1" .INIT .YES)).1.Add
        (sampleBallot "n1" "h1" .INIT .NO)).1.votes .INIT).size =
      (((sampleResult "h1").Add (sampleBallot "n1" "h1" .INIT .YES)).1.votes .INIT).size ∧
    ((((sampleResult "h1").Add (sampleBallot "n1" "h1" .INIT .YES)).1.Add
        (sampleBallot "n1" "h1" .INIT .NO)).1.votes .INIT).lookup "n1" = some .NO :=
  ⟨(Add_one_vote_per_validator (sampleResult "h1") (sampleBallot "n1" "h1" .INIT .YES)
      (sampleBallot "n1" "h1" .INIT .NO) rfl rfl rfl rfl).1,
    by decide⟩

theorem VotingResult.AddAll_cons (r : VotingResult) (b : Ballot) (bs : List Ballot) :
    r.AddAll (b :: bs) = (r.Add b).1.AddAll bs := rfl

/-- YES ballots for one state from validators that have voted neither NO nor EXPIRED leave
the NO and the EXPIRED tally of the state as they were. -/
theorem VotingResult.AddAll_yes (state : BallotState) :
    ∀ (bs : List Ballot) (r : VotingResult),
      (∀ b ∈ bs, b.MessageHash = r.MessageHash ∧ b.State = state ∧ b.B.VotingHole = .YES ∧
        (r.votes state).lookup b.B.NodeKey ≠ some .NO ∧
        (r.votes state).lookup b.B.NodeKey ≠ some .EXPIRED) →
      ((r.AddAll bs).votes state).count .NO = (r.votes state).count .NO ∧
      ((r.AddAll bs).votes state).count .EXPIRED = (r.votes state).count .EXPIRED
  | [], _, _ => ⟨rfl, rfl⟩
  | b :: bs, r, h => by
    obtain ⟨hb, hst, hv, hno, hexp⟩ := h b (List.mem_cons_self _ _)
    have hvotes : (r.Add b).1.votes state = (r.votes state).insert b.B.NodeKey .YES := by
      rw [VotingResult.votes_Add r b hb, if_pos hst.symm, hv]
    have hrest : ∀ c ∈ bs, c.MessageHash = (r.Add b).1.MessageHash ∧ c.State = state ∧
        c.B.VotingHole = .YES ∧
        ((r.Add b).1.votes state).lookup c.B.NodeKey ≠ some .NO ∧
        ((r.Add b).1.votes state).lookup c.B.NodeKey ≠ some .EXPIRED := by
      intro c hc
      obtain ⟨hcb, hcst, hcv, hcno, hcexp⟩ := h c (List.mem_cons_of_mem _ hc)
      refine ⟨by rw [VotingResult.hash_Add, hcb], hcst, hcv, ?_, ?_⟩
      · rw [hvotes]
        by_cases hk : c.B.NodeKey = b.B.NodeKey
        · rw [hk, AList.lookup_insert]; simp
        · rw [AList.lookup_insert_ne hk]; exact hcno
      · rw [hvotes]
        by_cases hk : c.B.NodeKey = b.B.NodeKey
        · rw [hk, AList.lookup_insert]; simp
        · rw [AList.lookup_insert_ne hk]; exact hcexp
    obtain ⟨ih1, ih2⟩ := VotingResult.AddAll_yes state bs (r.Add b).1 hrest
    rw [VotingResult.AddAll_cons, ih1, ih2, hvotes, Votes.count_insert, Votes.count_insert]
    have e1 := Votes.count_erase (r.votes state) b.B.NodeKey .NO
    have e2 := Votes.count_erase (r.votes state) b.B.NodeKey .EXPIRED
    rw [if_neg hno] at e1
    rw [if_neg hexp] at e2
    simp only [reduceCtorEq, if_false, Nat.add_zero] at e1 e2 ⊢
    exact ⟨e1, e2⟩

/-- Counterexample to C12 as stated: with a quorum of 2 out of 4 validators, two NO votes
give the outcome NO; two YES ballots from the two validators that had not voted then give
the outcome YES. -/
theorem no_outcome_flips_to_yes :
    twoNo.CheckThreshold .INIT (halfPolicy 4) = (.NO, true) ∧
    (∀ b ∈ yesBallots ["n3", "n4"] .INIT,
      b.MessageHash = twoNo.MessageHash ∧ b.State = .INIT ∧ b.B.VotingHole = .YES ∧
      (twoNo.votes .INIT).lookup b.B.NodeKey = none) ∧
    (twoNo.AddAll (yesBallots ["n3", "n4"] .INIT)).CheckThreshold .INIT (halfPolicy 4) =
      (.YES, true) :=
  ⟨by decide, by decide, by decide⟩

/-- C12, amended: when `no + expired ≥ quorum` makes `CheckThreshold` return the outcome NO,
then after any further `Add` calls with YES ballots for that state from validators that had
not yet voted the NO and EXPIRED tallies are unchanged and the state is still ended; the
outcome is still NO exactly as long as the YES tally is below the quorum, and it is YES once
the YES tally reaches the quorum.  The outcome stays NO in particular when the quorum is
more than half of the validators and no more than `validators` validators have voted. -/
theorem no_outcome_after_yes (r : VotingResult) (policy : DefaultVotingThresholdPolicy)
    (state : BallotState) (bs : List Ballot)
    (hno : (r.CheckThreshold state policy).1 = .NO)
    (hbs : ∀ b ∈ bs, b.MessageHash = r.MessageHash ∧ b.State = state ∧
      b.B.VotingHole = .YES ∧ (r.votes state).lookup b.B.NodeKey = none) :
    ((r.AddAll bs).CheckThreshold state policy).2 = true ∧
    ((r.AddAll bs).votes state).count .NO = (r.votes state).count .NO ∧
    ((r.AddAll bs).votes state).count .EXPIRED = (r.votes state).count .EXPIRED ∧
    (((r.AddAll bs).CheckThreshold state policy).1 = .NO ↔
      ((r.AddAll bs).votes state).count .YES < policy.quorum state) ∧
    (((r.AddAll bs).CheckThreshold state policy).1 = .YES ↔
      policy.quorum state ≤ ((r.AddAll bs).votes state).count .YES) ∧
    (policy.Validators < 2 * policy.quorum state →
      ((r.AddAll bs).votes state).size ≤ policy.Validators →
      ((r.AddAll bs).CheckThreshold state policy).1 = .NO) := by
  have hs : state ≠ .NONE := by
    intro h
    subst h
    simp [VotingResult.CheckThreshold] at hno
  have hq : policy.quorum state ≤ (r.votes state).count .NO + (r.votes state).count .EXPIRED := by
    unfold VotingResult.CheckThreshold at hno
    simp only [hs, if_false] at hno
    by_cases h1 : policy.quorum state ≤ (r.votes state).count .YES
    · rw [if_pos h1] at hno
      exact absurd hno (by decide)
    · rw [if_neg h1] at hno
      by_cases h2 : policy.quorum state ≤
          (r.votes state).count .NO + (r.votes state).count .EXPIRED
      · exact h2
      · rw [if_neg h2] at hno
        exact absurd hno (by decide)
  obtain ⟨e1, e2⟩ := VotingResult.AddAll_yes state bs r (fun b hb => by
    obtain ⟨h1, h2, h3, h4⟩ := hbs b hb
    exact ⟨h1, h2, h3, by rw [h4]; simp, by rw [h4]; simp⟩)
  have hq2 : policy.quorum state ≤ ((r.AddAll bs).votes state).count .NO +
      ((r.AddAll bs).votes state).count .EXPIRED := by rw [e1, e2]; exact hq
  have hthree : ((r.AddAll bs).votes state).count .YES + ((r.AddAll bs).votes state).count .NO +
      ((r.AddAll bs).votes state).count .EXPIRED ≤ ((r.AddAll bs).votes state).size :=
    count_three_le ((r.AddAll bs).votes state).entries
  have hout : ((r.AddAll bs).CheckThreshold state policy).1 =
      if policy.quorum state ≤ ((r.AddAll bs).votes state).count .YES then VotingHole.YES
      else VotingHole.NO := by
    unfold VotingResult.CheckThreshold
    simp only [hs, if_false, hq2, if_true]
  refine ⟨?_, e1, e2, ?_, ?_, ?_⟩
  · unfold VotingResult.CheckThreshold
    simp only [hs, if_false, hq2, decide_True, Bool.or_true, Bool.true_or]
  · rw [hout]
    by_cases h : policy.quorum state ≤ ((r.AddAll bs).votes state).count .YES
    · rw [if_pos h]
      exact ⟨fun hc => absurd hc (by decide), fun hc => absurd h (Nat.not_le.2 hc)⟩
    · rw [if_neg h]
      exact ⟨fun _ => Nat.not_le.1 h, fun _ => rfl⟩
  · rw [hout]
    by_cases h : policy.quorum state ≤ ((r.AddAll bs).votes state).count .YES
    · rw [if_pos h]
      exact ⟨fun _ => h, fun _ => rfl⟩
    · rw [if_neg h]
      exact ⟨fun hc => absurd hc (by decide), fun hc => absurd hc h⟩
  · intro hhalf hsize
    rw [hout, if_neg]
    omega

/-- Witness of C12, amended: with a quorum of 2 out of 3 validators, two NO votes and then a
YES ballot from the third validator. -/
theorem no_outcome_after_yes_witness :
    twoNo.CheckThreshold .INIT (halfPolicy 3) = (.NO, true) ∧
    (twoNo.AddAll (yesBallots ["n3"] .INIT)).CheckThreshold .INIT (halfPolicy 3) = (.NO, true) ∧
    ((twoNo.AddAll (yesBallots ["n3"] .INIT)).CheckThreshold .INIT (halfPolicy 3)).1 = .NO :=
  ⟨by decide, by decide,
    (no_outcome_after_yes twoNo (halfPolicy 3) .INIT (yesBallots ["n3"] .INIT) (by decide)
      (by decide)).2.2.2.2.2 (by decide) (by decide)⟩

/-! ## Claims on the ballot record -/

theorem Ballot.Sign_body (lib : Lib) (b : Ballot) (kp : Keypair) :
    (b.Sign lib kp).B = { b.B with NodeKey := kp.Address } := by
  unfold Ballot.Sign Ballot.UpdateHash
  by_cases h : kp.Address = b.B.NodeKey
  · simp only [ne_eq, h, not_true_eq_false, if_false]
  · simp only [ne_eq, h, not_false_eq_true, if_true]

/-- C17: after `b.Sign(kp)` the body's `NodeKey` is `kp.Address()`, `H.Hash` is
`base58(MakeHash(B))` over the body that already carries the new `NodeKey`, `H.Signature` is
base58 of the signature of `kp` over the bytes of that `H.Hash`, and `T`, `D` and the body
fields `Hash`, `State`, `VotingHole` and `Reason` are unchanged. -/
theorem Sign_makes_signer_author (lib : Lib) (b : Ballot) (kp : Keypair) :
    (b.Sign lib kp).B.NodeKey = kp.Address ∧
    (b.Sign lib kp).H.Hash = lib.base58Encode (BallotBody.MakeHash lib (b.Sign lib kp).B) ∧
    (b.Sign lib kp).H.Hash =
      lib.base58Encode (lib.MustMakeObjectHash { b.B with NodeKey := kp.Address }) ∧
    (b.Sign lib kp).H.Signature =
      lib.base58Encode (kp.Sign (bytesOfString (b.Sign lib kp).H.Hash)) ∧
    (b.Sign lib kp).T = b.T ∧ (b.Sign lib kp).D = b.D ∧
    (b.Sign lib kp).B.Hash = b.B.Hash ∧ (b.Sign lib kp).B.State = b.B.State ∧
    (b.Sign lib kp).B.VotingHole = b.B.VotingHole ∧
    (b.Sign lib kp).B.Reason = b.B.Reason := by
  have hB := Ballot.Sign_body lib b kp
  have hH : (b.Sign lib kp).H.Hash =
      lib.base58Encode (lib.MustMakeObjectHash { b.B with NodeKey := kp.Address }) := by
    unfold Ballot.Sign Ballot.UpdateHash BallotBody.MakeHash
    by_cases h : kp.Address = b.B.NodeKey
    · simp only [ne_eq, h, not_true_eq_false, if_false]
    · simp only [ne_eq, h, not_false_eq_true, if_true]
  have hS : (b.Sign lib kp).H.Signature =
      lib.base58Encode (kp.Sign (bytesOfString (b.Sign lib kp).H.Hash)) := by
    rw [hH]
    unfold Ballot.Sign Ballot.UpdateHash BallotBody.MakeHash Ballot.GetHash
    by_cases h : kp.Address = b.B.NodeKey
    · simp only [ne_eq, h, not_true_eq_false, if_false]
    · simp only [ne_eq, h, not_false_eq_true, if_true]
  have hT : (b.Sign lib kp).T = b.T ∧ (b.Sign lib kp).D = b.D := by
    unfold Ballot.Sign Ballot.UpdateHash
    by_cases h : kp.Address = b.B.NodeKey
    · simp only [ne_eq, h, not_true_eq_false, if_false, and_self]
    · simp only [ne_eq, h, not_false_eq_true, if_true, and_self]
  refine ⟨by rw [hB], ?_, hH, hS, hT.1, hT.2, by rw [hB], by rw [hB], by rw [hB], by rw [hB]⟩
  rw [hH, hB]
  rfl

/-- C18: `NewBallotFromMessage` returns a nil error and a ballot with `T = "ballot"`,
`B.State = INIT`, `B.VotingHole = NOTYET`, `B.NodeKey = k`, `B.Hash = m.GetHash()`,
`D.Data = m`, `H.Signature = ""` and `H.Hash = base58(MakeHash(B))` for exactly that body. -/
theorem NewBallotFromMessage_unsigned_init (lib : Lib) (k : String) (m : Message) :
    (NewBallotFromMessage lib k m).2 = none ∧
    (NewBallotFromMessage lib k m).1.T = "ballot" ∧
    (NewBallotFromMessage lib k m).1.B.State = .INIT ∧
    (NewBallotFromMessage lib k m).1.B.VotingHole = .NOTYET ∧
    (NewBallotFromMessage lib k m).1.B.NodeKey = k ∧
    (NewBallotFromMessage lib k m).1.B.Hash = m.Hash ∧
    (NewBallotFromMessage lib k m).1.B.Reason = "" ∧
    (NewBallotFromMessage lib k m).1.D.Data = some m ∧
    (NewBallotFromMessage lib k m).1.H.Signature = "" ∧
    (NewBallotFromMessage lib k m).1.H.Hash =
      lib.base58Encode (BallotBody.MakeHash lib (NewBallotFromMessage lib k m).1.B) :=
  ⟨rfl, rfl, rfl, rfl, rfl, rfl, rfl, rfl, rfl, rfl⟩

/-- C19: after `b.UpdateHash()` the header hash is `base58(MakeHash(b.B))`, every other field
(`H.Signature`, `B`, `D`, `T`) is unchanged, and a second `UpdateHash` changes nothing. -/
theorem UpdateHash_restores_header_hash (lib : Lib) (b : Ballot) :
    (b.UpdateHash lib).H.Hash = lib.base58Encode (BallotBody.MakeHash lib b.B) ∧
    (b.UpdateHash lib).H.Hash = lib.base58Encode (BallotBody.MakeHash lib (b.UpdateHash lib).B) ∧
    (b.UpdateHash lib).H.Signature = b.H.Signature ∧
    (b.UpdateHash lib).B = b.B ∧ (b.UpdateHash lib).D = b.D ∧ (b.UpdateHash lib).T = b.T ∧
    (b.UpdateHash lib).UpdateHash lib = b.UpdateHash lib :=
  ⟨rfl, rfl, rfl, rfl, rfl, rfl, rfl⟩

/-- C20: for a ballot whose state is not INIT, `Serialize` is the encoding of the ballot with
`D.Data` set to nil, so two such ballots that differ only in `D.Data` serialize to the same
bytes; for state INIT it is the encoding of the ballot itself, payload included.  What is
encoded outside INIT is a copy that agrees with the ballot on `T`, `H` and `B`; the ballot of
the caller is a value the call cannot change. -/
theorem Serialize_drops_payload (lib : Lib) (b : Ballot) :
    (b.State = .INIT → b.Serialize lib = lib.jsonMarshal b) ∧
    (b.State ≠ .INIT →
      b.Serialize lib = lib.jsonMarshal { b with D := { Data := none } } ∧
      ∀ b2 : Ballot, b2.T = b.T → b2.H = b.H → b2.B = b.B →
        b2.Serialize lib = b.Serialize lib) ∧
    (({ b with D := { Data := none } } : Ballot).T = b.T ∧
      ({ b with D := { Data := none } } : Ballot).H = b.H ∧
      ({ b with D := { Data := none } } : Ballot).B = b.B ∧
      ({ b with D := { Data := none } } : Ballot).D.Data = none) := by
  refine ⟨fun h => ?_, fun h => ⟨?_, fun b2 hT hH hB => ?_⟩, rfl, rfl, rfl, rfl⟩
  · unfold Ballot.Serialize
    rw [if_pos h]
  · unfold Ballot.Serialize
    rw [if_neg h]
  · have h2 : b2.State ≠ .INIT := by
      unfold Ballot.State at h ⊢
      rw [hB]
      exact h
    unfold Ballot.Serialize
    rw [if_neg h, if_neg h2, hT, hH, hB]

/-! ## Further claims on a single box and on `AddBallot` -/

/-- C28: on a box whose `Hashes` is ascending without duplicates and for a voting result
whose hash is not in it, `AddVotingResult` followed by `RemoveVotingResult` both return nil
and leave `Hashes` equal, element for element, to the list before the two calls. -/
theorem BallotBox.add_then_remove (b : BallotBox) (vr : VotingResult)
    (hs : b.Hashes.Sorted (· < ·)) (hnew : vr.MessageHash ∉ b.Hashes) :
    (b.AddVotingResult vr).2 = none ∧
    (b.AddVotingResult vr).1.RemoveVotingResult vr = some ({ Hashes := b.Hashes }, none) := by
  have hhas : ¬ b.HasMessageByString vr.MessageHash = true := fun hc => hnew ((b.has_iff _).1 hc)
  have hadd : b.AddVotingResult vr =
      ({ Hashes := sortStrings (b.Hashes ++ [vr.MessageHash]) }, none) := by
    unfold BallotBox.AddVotingResult
    rw [if_neg hhas]
  have hs1 : (b.AddVotingResult vr).1.Hashes.Sorted (· < ·) := b.sorted_add vr hs
  have hm1 : vr.MessageHash ∈ (b.AddVotingResult vr).1.Hashes :=
    (b.mem_add vr _).2 (Or.inl rfl)
  refine ⟨by rw [hadd], ?_⟩
  rw [BallotBox.remove_of_mem _ vr hs1 hm1]
  have hperm : ((b.AddVotingResult vr).1.Hashes.erase vr.MessageHash).Perm b.Hashes := by
    have h1 : (b.AddVotingResult vr).1.Hashes.Perm (b.Hashes ++ [vr.MessageHash]) := by
      rw [hadd]; exact sortStrings_perm _
    have h2 := h1.erase vr.MessageHash
    rw [List.erase_append_right _ hnew] at h2
    simpa using h2
  have hsorted : ((b.AddVotingResult vr).1.Hashes.erase vr.MessageHash).Sorted (· ≤ ·) :=
    List.Sorted.le_of_lt (List.Pairwise.sublist (List.erase_sublist _ _) hs1)
  rw [List.eq_of_perm_of_sorted hperm hsorted hs.le_of_lt]

/-- Witness of C28: "b" is added to and removed from a box that holds "a" and "c". -/
theorem BallotBox.add_then_remove_witness :
    (({ Hashes := ["a", "c"] } : BallotBox).AddVotingResult (sampleResult "b")).1.Hashes =
      ["a", "b", "c"] ∧
    (({ Hashes := ["a", "c"] } : BallotBox).AddVotingResult (sampleResult "b")).2 = none ∧
    (({ Hashes := ["a", "c"] } : BallotBox).AddVotingResult
        (sampleResult "b")).1.RemoveVotingResult (sampleResult "b") =
      some ({ Hashes := ["a", "c"] }, none) :=
  ⟨by decide,
    BallotBox.add_then_remove { Hashes := ["a", "c"] } (sampleResult "b")
      (sorted_of_stringLess (by decide)) (by decide)⟩

theorem BallotBoxes.len_replace (B : BallotBoxes) (a : String) (r1 : Sebak.VotingResult) :
    (B.Results.replace a r1).entries.length = B.Results.entries.length := by
  have h1 : (B.Results.replace a r1).keys.length = B.Results.keys.length := by
    rw [AList.keys_replace]
  simpa [AList.keys, List.keys] using h1

theorem BallotBoxes.len_AddVotingResult (B : BallotBoxes) (vr : Sebak.VotingResult)
    (bb : BoxRef) (hnew : B.HasMessageByString vr.MessageHash = false) :
    (B.AddVotingResult vr bb).1.Len = B.Len + 1 := by
  have h : (B.AddVotingResult vr bb).1.Results = B.Results.insert vr.MessageHash vr := by
    cases bb <;> rfl
  have hnot : vr.MessageHash ∉ B.Results := by
    intro hc
    have := AList.lookup_isSome.2 hc
    unfold BallotBoxes.HasMessageByString at hnew
    rw [hnew] at this
    exact Bool.noConfusion this
  unfold BallotBoxes.Len
  rw [h, AList.insert_entries_of_neg hnot, List.length_cons]

/-- What `AddBallot` has done when it returns. -/
theorem AddBallot_returned (B B1 : BallotBoxes) (ballot : Ballot) (id : String) (isNew : Bool)
    (err : Option Error) (h : B.AddBallot ballot id = some (B1, isNew, err)) :
    (isNew = true ↔ B.HasMessageByString ballot.MessageHash = false) ∧
    (err = none →
      (isNew = true → B1.Len = B.Len + 1) ∧
      (isNew = false → B1.Len = B.Len) ∧
      B1.HasMessageByString ballot.MessageHash = true) := by
  by_cases hkey : B.HasMessageByString ballot.MessageHash = true
  · obtain ⟨vr, _, hadd⟩ := B.AddBallot_old ballot id hkey
    rw [hadd] at h
    have hrep : ∀ (r1 : VotingResult) (wb vb rb : BallotBox),
        BallotBoxes.Len { Results := B.Results.replace ballot.MessageHash r1, WaitingBox := wb,
                          VotingBox := vb, ReservedBox := rb } = B.Len ∧
        BallotBoxes.HasMessageByString
          { Results := B.Results.replace ballot.MessageHash r1, WaitingBox := wb,
            VotingBox := vb, ReservedBox := rb } ballot.MessageHash = true := by
      intro r1 wb vb rb
      refine ⟨B.len_replace _ r1, ?_⟩
      unfold BallotBoxes.HasMessageByString at hkey ⊢
      rw [← hkey]
      exact B.has_replace _ r1 _
    rcases vr.Add_cases ballot with ⟨_, he⟩ | ⟨_, r1, he, _⟩
    · rw [he] at h
      simp only [Option.some.injEq, Prod.mk.injEq] at h
      obtain ⟨_, h2, h3⟩ := h
      subst h2
      refine ⟨by simp [hkey], fun hn => ?_⟩
      rw [hn] at h3
      exact absurd h3 (by simp)
    · rw [he] at h
      by_cases hres : B.ReservedBox.HasMessageByString ballot.MessageHash = true
      · simp only [hres, if_true] at h
        cases hrm : B.ReservedBox.RemoveVotingResult r1 with
        | none => rw [hrm] at h; simp at h
        | some p =>
          obtain ⟨reserved, e⟩ := p
          rw [hrm] at h
          simp only [Option.some.injEq, Prod.mk.injEq] at h
          obtain ⟨h1, h2, _⟩ := h
          subst h1 h2
          exact ⟨by simp [hkey], fun _ =>
            ⟨fun hc => absurd hc (by simp), fun _ => (hrep r1 _ _ _).1, (hrep r1 _ _ _).2⟩⟩
      · have hres0 : B.ReservedBox.HasMessageByString ballot.MessageHash = false := by
          simpa using hres
        simp only [hres0, Bool.false_eq_true, if_false, Option.some.injEq, Prod.mk.injEq] at h
        obtain ⟨h1, h2, _⟩ := h
        subst h1 h2
        exact ⟨by simp [hkey], fun _ =>
          ⟨fun hc => absurd hc (by simp), fun _ => (hrep r1 _ _ _).1, (hrep r1 _ _ _).2⟩⟩
  · have hnew : B.HasMessageByString ballot.MessageHash = false := by simpa using hkey
    rw [B.AddBallot_new ballot id hnew] at h
    simp only [Option.some.injEq, Prod.mk.injEq] at h
    obtain ⟨h1, h2, _⟩ := h
    subst h1 h2
    refine ⟨by simp [hnew], fun _ => ⟨fun _ => ?_, fun hc => absurd hc (by simp), ?_⟩⟩
    · exact B.len_AddVotingResult _ _ hnew
    · rw [BallotBoxes.has_AddVotingResult]
      exact Or.inl rfl

theorem BallotBoxes.AddBallot_known_returns (B : BallotBoxes) (ballot : Ballot) (id : String)
    (hkey : B.HasMessageByString ballot.MessageHash = true)
    (hok : B.ReservedBox.HasMessageByString ballot.MessageHash = false ∨
      B.ReservedBox.Hashes.Sorted (· < ·)) :
    ∃ r, B.AddBallot ballot id = some r := by
  obtain ⟨vr, _, hadd⟩ := B.AddBallot_old ballot id hkey
  rcases vr.Add_cases ballot with ⟨_, he⟩ | ⟨hm, r1, he, hr1⟩
  · rw [he] at hadd
    exact ⟨_, hadd⟩
  · rw [he] at hadd
    by_cases hres : B.ReservedBox.HasMessageByString ballot.MessageHash = true
    · rcases hok with hno | hsorted
      · rw [hno] at hres
        exact absurd hres (by simp)
      · have hin : r1.MessageHash ∈ B.ReservedBox.Hashes := by
          rw [hr1, ← hm]
          exact (BallotBox.has_iff _ _).1 hres
        simp only [hres, if_true, BallotBox.remove_of_mem _ r1 hsorted hin] at hadd
        exact ⟨_, hadd⟩
    · have hres0 : B.ReservedBox.HasMessageByString ballot.MessageHash = false := by
        simpa using hres
      simp only [hres0, Bool.false_eq_true, if_false] at hadd
      exact ⟨_, hadd⟩

/-- C22: `AddBallot` returns `isNew = true` exactly when the ballot's hash was not a key of
`Results` before the call.  For a hash that was not a key it returns `isNew = true` and a
nil error, `Len()` has grown by exactly one and the hash is a key.  For a hash that was a key
it returns (whenever `ReservedBox` does not hold the hash or is ascending), and what it
returns is `isNew = false` with `Len()` unchanged and the hash still a key. -/
theorem AddBallot_isNew (B : BallotBoxes) (ballot : Ballot) (id : String) :
    (∀ B1 isNew err, B.AddBallot ballot id = some (B1, isNew, err) →
      (isNew = true ↔ B.HasMessageByString ballot.MessageHash = false)) ∧
    (B.HasMessageByString ballot.MessageHash = false →
      ∃ B1, B.AddBallot ballot id = some (B1, true, none) ∧ B1.Len = B.Len + 1 ∧
        B1.HasMessageByString ballot.MessageHash = true) ∧
    (B.HasMessageByString ballot.MessageHash = true →
      (B.ReservedBox.HasMessageByString ballot.MessageHash = false ∨
          B.ReservedBox.Hashes.Sorted (· < ·) →
        ∃ B1 err, B.AddBallot ballot id = some (B1, false, err)) ∧
      ∀ B1 isNew err, B.AddBallot ballot id = some (B1, isNew, err) →
        isNew = false ∧ B1.HasMessageByString ballot.MessageHash = true ∧
        (err = none → B1.Len = B.Len)) ∧
    ((NewBallotBoxes.AddBallot (sampleBallot "n1" "h1" .INIT .YES) "id").map
        (fun r => (r.1.Len, r.2.1, r.2.2)) = some (1, true, none) ∧
      ((NewBallotBoxes.AddVotingResult (sampleResult "h1") .Waiting).1.AddBallot
        (sampleBallot "n2" "h1" .INIT .YES) "id").map
        (fun r => (r.1.Len, r.2.1, r.2.2)) = some (1, false, none)) := by
  refine ⟨fun B1 isNew err h => (AddBallot_returned B B1 ballot id isNew err h).1, ?_, ?_,
    rfl, rfl⟩
  · intro hnew
    have hadd := B.AddBallot_new ballot id hnew
    obtain ⟨_, h2⟩ := AddBallot_returned B _ ballot id true none hadd
    exact ⟨_, hadd, (h2 rfl).1 rfl, (h2 rfl).2.2⟩
  · intro hkey
    have hall : ∀ B1 isNew err, B.AddBallot ballot id = some (B1, isNew, err) →
        isNew = false ∧ B1.HasMessageByString ballot.MessageHash = true ∧
        (err = none → B1.Len = B.Len) := by
      intro B1 isNew err h
      obtain ⟨h1, h2⟩ := AddBallot_returned B B1 ballot id isNew err h
      have hfalse : isNew = false := by
        cases isNew with
        | false => rfl
        | true =>
          have := h1.1 rfl
          rw [hkey] at this
          exact Bool.noConfusion this
      refine ⟨hfalse, ?_, fun he => (h2 he).2.1 hfalse⟩
      cases err with
      | none => exact (h2 rfl).2.2
      | some e =>
        have hatomic : B1 = B := by
          obtain ⟨vr, _, hadd⟩ := B.AddBallot_old ballot id hkey
          rw [hadd] at h
          rcases vr.Add_cases ballot with ⟨_, hadd1⟩ | ⟨_, r1, hadd1, _⟩
          · rw [hadd1] at h
            simp only [Option.some.injEq, Prod.mk.injEq] at h
            exact h.1.symm
          · rw [hadd1] at h
            exfalso
            by_cases hres : B.ReservedBox.HasMessageByString ballot.MessageHash = true
            · simp only [hres, if_true] at h
              cases hrm : B.ReservedBox.RemoveVotingResult r1 with
              | none => rw [hrm] at h; simp at h
              | some p => rw [hrm] at h; simp at h
            · simp only [hres, Bool.false_eq_true, if_false] at h
              simp at h
        rw [hatomic]
        exact hkey
    refine ⟨fun hok => ?_, hall⟩
    obtain ⟨⟨B1, isNew, err⟩, hr⟩ := B.AddBallot_known_returns ballot id hkey hok
    obtain ⟨hfalse, _⟩ := hall B1 isNew err hr
    subst hfalse
    exact ⟨B1, err, hr⟩

/-- C27: in every state reachable from `NewBallotBoxes` through `AddBallot` and
`AddVotingResult`, each key of `Results` maps to a voting result that carries the key as its
`MessageHash`, and `AddBallot` returns, with a nil error, for every ballot. -/
theorem AddBallot_cannot_fail (B : BallotBoxes) (hB : Reachable B) (ballot : Ballot)
    (id : String) :
    (∀ h vr, B.Results.lookup h = some vr → vr.MessageHash = h) ∧
    ∃ B1 isNew, B.AddBallot ballot id = some (B1, isNew, none) := by
  have hasc : B.Ascending := ReachableBy.ascending hB
  have hkeyed : B.KeyedByHash := ReachableBy.keyed hB
  refine ⟨hkeyed, ?_⟩
  by_cases hkey : B.HasMessageByString ballot.MessageHash = true
  · obtain ⟨vr, hvr, hadd⟩ := B.AddBallot_old ballot id hkey
    have hvrh : vr.MessageHash = ballot.MessageHash := hkeyed _ _ hvr
    rcases vr.Add_cases ballot with ⟨hne, _⟩ | ⟨_, r1, he, hr1⟩
    · exact absurd hvrh.symm hne
    · rw [he] at hadd
      by_cases hres : B.ReservedBox.HasMessageByString ballot.MessageHash = true
      · have hm : r1.MessageHash ∈ B.ReservedBox.Hashes := by
          rw [hr1, hvrh]; exact (BallotBox.has_iff _ _).1 hres
        simp only [hres, if_true, BallotBox.remove_of_mem _ r1 hasc.2.2 hm] at hadd
        exact ⟨_, _, hadd⟩
      · have hres0 : B.ReservedBox.HasMessageByString ballot.MessageHash = false := by
          simpa using hres
        simp only [hres0, Bool.false_eq_true, if_false] at hadd
        exact ⟨_, _, hadd⟩
  · have hnew : B.HasMessageByString ballot.MessageHash = false := by simpa using hkey
    exact ⟨_, _, B.AddBallot_new ballot id hnew⟩

/-- Witness of C27: a ballot for a payload that sits in `ReservedBox`. -/
theorem AddBallot_cannot_fail_witness :
    Reachable (NewBallotBoxes.AddVotingResult (sampleResult "h1") .Reserved).1 ∧
    ∃ B1 isNew, (NewBallotBoxes.AddVotingResult (sampleResult "h1") .Reserved).1.AddBallot
      (sampleBallot "n1" "h1" .SIGN .NO) "id" = some (B1, isNew, none) :=
  ⟨ReachableBy.step (.addVotingResult (sampleResult "h1") .Reserved) ReachableBy.init
      trivial rfl,
    (AddBallot_cannot_fail (NewBallotBoxes.AddVotingResult (sampleResult "h1") .Reserved).1
      (ReachableBy.step (.addVotingResult (sampleResult "h1") .Reserved) ReachableBy.init
        trivial rfl)
      (sampleBallot "n1" "h1" .SIGN .NO) "id").2⟩

/-! ## Further claims on the ballot record -/

/-- C25: `SetState(s)` changes only `B.State` and `Vote(v)` changes only `B.VotingHole`;
`H.Hash` and `H.Signature`, every other body field, `T` and `D` are unchanged, so the header
hash is the one computed before the call. -/
theorem setters_touch_one_field (b : Ballot) (s : BallotState) (v : VotingHole) :
    ((b.SetState s).B.State = s ∧
      (b.SetState s).B = { b.B with State := s } ∧
      (b.SetState s).B.Hash = b.B.Hash ∧ (b.SetState s).B.NodeKey = b.B.NodeKey ∧
      (b.SetState s).B.VotingHole = b.B.VotingHole ∧ (b.SetState s).B.Reason = b.B.Reason ∧
      (b.SetState s).H = b.H ∧ (b.SetState s).T = b.T ∧ (b.SetState s).D = b.D) ∧
    ((b.Vote v).B.VotingHole = v ∧
      (b.Vote v).B = { b.B with VotingHole := v } ∧
      (b.Vote v).B.Hash = b.B.Hash ∧ (b.Vote v).B.NodeKey = b.B.NodeKey ∧
      (b.Vote v).B.State = b.B.State ∧ (b.Vote v).B.Reason = b.B.Reason ∧
      (b.Vote v).H = b.H ∧ (b.Vote v).T = b.T ∧ (b.Vote v).D = b.D) :=
  ⟨⟨rfl, rfl, rfl, rfl, rfl, rfl, rfl, rfl, rfl⟩, ⟨rfl, rfl, rfl, rfl, rfl, rfl, rfl, rfl, rfl⟩⟩

theorem Ballot.Sign_signature (lib : Lib) (b : Ballot) (kp : Keypair) :
    (b.Sign lib kp).H.Signature =
      lib.base58Encode (kp.Sign (bytesOfString (b.Sign lib kp).GetHash)) := by
  unfold Ballot.Sign Ballot.UpdateHash BallotBody.MakeHash Ballot.GetHash
  by_cases h : kp.Address = b.B.NodeKey
  · simp only [ne_eq, h, not_true_eq_false, if_false]
  · simp only [ne_eq, h, not_false_eq_true, if_true]

/-- C24: when base58 decoding inverts encoding and the key parsed from the address of `kp`
accepts what `kp` signs, `VerifySignature` returns nil right after `b.Sign(kp)`, whatever
`b.B.NodeKey` was and also after `SetState` and `Vote` changed the body before signing. -/
theorem signed_ballot_verifies (lib : Lib) (b : Ballot) (kp : Keypair)
    (hdec : ∀ bs, lib.base58Decode (lib.base58Encode bs) = bs)
    (hver : ∃ accepts, lib.keypairParse kp.Address = some accepts ∧
      ∀ msg, accepts msg (kp.Sign msg) = true) :
    (b.Sign lib kp).VerifySignature lib = some none ∧
    ∀ s v, (((b.SetState s).Vote v).Sign lib kp).VerifySignature lib = some none := by
  have key : ∀ c : Ballot, (c.Sign lib kp).VerifySignature lib = some none := by
    intro c
    obtain ⟨accepts, hparse, hacc⟩ := hver
    have hnode : (c.Sign lib kp).B.NodeKey = kp.Address := by rw [Ballot.Sign_body]
    unfold Ballot.VerifySignature
    rw [hnode, hparse]
    simp only [Ballot.Sign_signature, hdec, hacc, if_true]
  exact ⟨key b, fun s v => key _⟩

set_option maxRecDepth 100000 in
theorem byte_char_byte_below : ∀ (n : Nat) (h : n < 256),
    (Char.ofNat (UInt8.mk ⟨n, h⟩).toNat).toNat.toUInt8 = UInt8.mk ⟨n, h⟩ := by
  decide

theorem byte_char_byte (x : UInt8) : (Char.ofNat x.toNat).toNat.toUInt8 = x := by
  obtain ⟨⟨n, h⟩⟩ := x
  exact byte_char_byte_below n h

theorem sampleLib_decode_encode (bs : Bytes) :
    sampleLib.base58Decode (sampleLib.base58Encode bs) = bs := by
  show (bs.map (fun x => Char.ofNat x.toNat)).map (fun c => c.toNat.toUInt8) = bs
  rw [List.map_map]
  conv_rhs => rw [← List.map_id bs]
  apply List.map_congr_left
  intro x _
  exact byte_char_byte x

/-- Witness of C24: a ballot of node "n1" is signed by the key pair of "GA". -/
theorem signed_ballot_verifies_witness :
    (sampleInitBallot.Sign sampleLib sampleKeypair).B.NodeKey = "GA" ∧
    ((sampleInitBallot.Sign sampleLib sampleKeypair).VerifySignature sampleLib = some none ∧
      ∀ s v, (((sampleInitBallot.SetState s).Vote v).Sign sampleLib
        sampleKeypair).VerifySignature sampleLib = some none) :=
  ⟨rfl,
    signed_ballot_verifies sampleLib sampleInitBallot sampleKeypair sampleLib_decode_encode
      ⟨fun msg sig => decide (sig = msg), rfl, fun msg => by simp [sampleKeypair]⟩⟩

/-- C23, as the code has it: `Clone` copies `T`, the header, the data and the body fields
`Hash`, `NodeKey`, `State` and `VotingHole`, but not `Reason`, which is empty in the copy.
The copy of a ballot with `H.Hash = base58(MakeHash(B))` therefore satisfies the same
equation only if the hash does not tell the body from the body without its reason; with an
empty reason the copy is the ballot itself.  In the example library the ballot with the
reason "expired" satisfies the equation and its copy does not. -/
theorem Clone_drops_reason (lib : Lib) (b : Ballot) :
    b.Clone.T = b.T ∧ b.Clone.H = b.H ∧ b.Clone.D = b.D ∧
    b.Clone.B = { b.B with Reason := "" } ∧
    (b.B.Reason = "" → b.Clone = b) ∧
    (b.H.Hash = lib.base58Encode (b.B.MakeHash lib) →
      (b.Clone.H.Hash = lib.base58Encode (b.Clone.B.MakeHash lib) ↔
        lib.base58Encode (lib.MustMakeObjectHash b.B) =
          lib.base58Encode (lib.MustMakeObjectHash { b.B with Reason := "" }))) ∧
    (reasonedBallot.H.Hash = sampleLib.base58Encode (reasonedBallot.B.MakeHash sampleLib) ∧
      reasonedBallot.Clone.H.Hash ≠
        sampleLib.base58Encode (reasonedBallot.Clone.B.MakeHash sampleLib)) := by
  refine ⟨rfl, rfl, rfl, rfl, ?_, ?_, rfl, by decide⟩
  · intro h
    obtain ⟨T, H, B, D⟩ := b
    obtain ⟨bh, bn, bs, bv, br⟩ := B
    simp only at h
    subst h
    rfl
  · intro h
    show b.H.Hash = lib.base58Encode (lib.MustMakeObjectHash { b.B with Reason := "" }) ↔ _
    rw [h]
    rfl

/-! ## Decoding a ballot from the wire -/

theorem bytesOfString_append (a b : String) :
    bytesOfString (a ++ b) = bytesOfString a ++ bytesOfString b := by
  simp [bytesOfString, String.toUTF8, String.data_append, List.flatMap_append]

/-- The bytes of the record `BallotData.Serialize` writes are never the bytes of the payload's
own encoding. -/
theorem marshalBallotData_ne (text : String) : marshalBallotData text ≠ bytesOfString text := by
  intro h
  have hl := congrArg List.length h
  unfold marshalBallotData at hl
  rw [bytesOfString_append, bytesOfString_append, List.length_append, List.length_append] at hl
  have h1 : (bytesOfString "\x7d").length = 1 := by decide
  omega

/-- C21, as the code has it: when `json.Unmarshal` inverts `json.Marshal` on the bytes of
`Serialize(b)`, `NewBallotFromJSON` returns without error a ballot equal to `b` on `T`, `H`
and `B`; for a ballot outside INIT its data is empty; for an INIT ballot its payload is the
transaction that `NewTransactionFromJSON` makes of the bytes of `BallotData.Serialize`, the
record with the key `message`, which are never the bytes of the payload's own encoding. -/
theorem NewBallotFromJSON_after_Serialize (lib : Lib) (b : Ballot) (bytes : Bytes)
    (hser : b.Serialize lib = .ok bytes)
    (hdec : lib.jsonUnmarshal bytes =
      .ok (if b.State = .INIT then b.decoded
           else ({ b with D := { Data := none } } : Ballot).decoded)) :
    b.Serialize lib = .ok bytes ∧
    ∃ c, NewBallotFromJSON lib bytes = .ok c ∧ c.T = b.T ∧ c.H = b.H ∧ c.B = b.B ∧
      (b.State ≠ .INIT → c.D.Data = none) ∧
      (b.State = .INIT →
        c.D.Data = b.D.Data.map
          (fun m => (lib.NewTransactionFromJSON (marshalBallotData m.Encoded)).1)) ∧
      ∀ m : Message, marshalBallotData m.Encoded ≠ bytesOfString m.Encoded := by
  refine ⟨hser, ?_⟩
  unfold NewBallotFromJSON
  rw [hdec]
  by_cases hs : b.State = .INIT
  · rw [if_pos hs]
    cases hd : b.D.Data with
    | none =>
      refine ⟨{ T := b.T, H := b.H, B := b.B, D := { Data := none } }, ?_, rfl, rfl, rfl,
        fun hc => absurd hs hc, fun _ => rfl, fun m => marshalBallotData_ne _⟩
      simp [Ballot.decoded, DecodedData.IsEmpty, hd]
    | some m =>
      refine ⟨{ T := b.T, H := b.H, B := b.B,
                D := { Data := some (lib.NewTransactionFromJSON
                  (marshalBallotData m.Encoded)).1 } }, ?_, rfl, rfl, rfl,
        fun hc => absurd hs hc, fun _ => rfl, fun m => marshalBallotData_ne _⟩
      simp [Ballot.decoded, DecodedData.IsEmpty, DecodedData.Serialize, Ballot.SetMessage, hd]
  · rw [if_neg hs]
    refine ⟨{ T := b.T, H := b.H, B := b.B, D := { Data := none } }, ?_, rfl, rfl, rfl,
      fun _ => rfl, fun hc => absurd hc hs, fun m => marshalBallotData_ne _⟩
    simp [Ballot.decoded, DecodedData.IsEmpty]

/-- Witness of C21: the INIT ballot that carries `sampleTx`, in the example library, comes
back with the zero transaction, whose hash is not the message hash of the ballot. -/
theorem NewBallotFromJSON_after_Serialize_witness :
    sampleInitBallot.Serialize sampleLib = .ok (lowBytes "ballot/h1") ∧
    NewBallotFromJSON sampleLib (lowBytes "ballot/h1") =
      .ok { sampleInitBallot with D := { Data := some zeroTx } } ∧
    zeroTx.Hash ≠ sampleInitBallot.B.Hash ∧
    ∃ c, NewBallotFromJSON sampleLib (lowBytes "ballot/h1") = .ok c ∧
      c.T = sampleInitBallot.T ∧ c.H = sampleInitBallot.H ∧ c.B = sampleInitBallot.B ∧
      (sampleInitBallot.State ≠ .INIT → c.D.Data = none) ∧
      (sampleInitBallot.State = .INIT →
        c.D.Data = sampleInitBallot.D.Data.map
          (fun m => (sampleLib.NewTransactionFromJSON (marshalBallotData m.Encoded)).1)) ∧
      ∀ m : Message, marshalBallotData m.Encoded ≠ bytesOfString m.Encoded :=
  ⟨rfl, rfl, by decide,
    (NewBallotFromJSON_after_Serialize sampleLib sampleInitBallot (lowBytes "ballot/h1")
      rfl rfl).2⟩

/-! ## Histories of `AddBallot` alone -/

theorem firstState_snoc_of_some (pre : List (Ballot × String)) (c : Ballot × String)
    (h : String) (hs : (firstState pre h).isSome = true) :
    firstState (pre ++ [c]) h = firstState pre h := by
  unfold firstState at hs ⊢
  rw [List.find?_append]
  cases hf : pre.find? (fun c => decide (c.1.MessageHash = h)) with
  | none => rw [hf] at hs; simp at hs
  | some x => simp

theorem firstState_snoc_of_none (pre : List (Ballot × String)) (c : Ballot × String)
    (h : String) (hn : firstState pre h = none) :
    firstState (pre ++ [c]) h = if c.1.MessageHash = h then some c.1.State else none := by
  unfold firstState at hn ⊢
  rw [List.find?_append]
  cases hf : pre.find? (fun c => decide (c.1.MessageHash = h)) with
  | some x => rw [hf] at hn; simp at hn
  | none =>
    by_cases hc : c.1.MessageHash = h
    · simp [List.find?, hc]
    · simp [List.find?, hc]

/-- A ballot for a hash that is already a key leaves `Routed` as it is. -/
theorem BallotBoxes.routed_known (B B1 : BallotBoxes) (pre : List (Ballot × String))
    (c : Ballot × String) (hB : B.Routed pre)
    (hkey : B.HasMessageByString c.1.MessageHash = true)
    (hw : B1.WaitingBox = B.WaitingBox) (hv : B1.VotingBox = B.VotingBox)
    (hr : B1.ReservedBox = B.ReservedBox)
    (hhas : ∀ h, B1.HasMessageByString h = B.HasMessageByString h) :
    B1.Routed (pre ++ [c]) := by
  obtain ⟨hR, hK, hW, hV⟩ := hB
  have hsame : ∀ h, firstState (pre ++ [c]) h = firstState pre h := by
    intro h
    cases hf : firstState pre h with
    | some s =>
      rw [← hf]
      exact firstState_snoc_of_some pre c h (by rw [hf]; rfl)
    | none =>
      rw [firstState_snoc_of_none pre c h hf]
      by_cases hc : c.1.MessageHash = h
      · have := (hK c.1.MessageHash).1 hkey
        rw [hc, hf] at this
        exact absurd this (by simp)
      · rw [if_neg hc]
  refine ⟨by rw [hr]; exact hR, fun h => ?_, fun h => ?_, fun h => ?_⟩
  · rw [hhas, hsame]; exact hK h
  · rw [hw, hsame]; exact hW h
  · rw [hv, hsame]; exact hV h

/-- One `AddBallot` call on a routed structure returns and leaves a routed structure. -/
theorem BallotBoxes.routed_step (B : BallotBoxes) (pre : List (Ballot × String))
    (c : Ballot × String) (hB : B.Routed pre) :
    ∃ r, B.AddBallot c.1 c.2 = some r ∧ r.1.Routed (pre ++ [c]) := by
  by_cases hkey : B.HasMessageByString c.1.MessageHash = true
  · obtain ⟨vr, _, hadd⟩ := B.AddBallot_old c.1 c.2 hkey
    have hres : B.ReservedBox.HasMessageByString c.1.MessageHash = false := by
      rw [BallotBox.has_false_iff, hB.1]
      simp
    rcases vr.Add_cases c.1 with ⟨_, he⟩ | ⟨_, r1, he, _⟩
    · rw [he] at hadd
      exact ⟨_, hadd, B.routed_known B pre c hB hkey rfl rfl rfl (fun _ => rfl)⟩
    · rw [he] at hadd
      simp only [hres, Bool.false_eq_true, if_false] at hadd
      refine ⟨_, hadd, B.routed_known _ pre c hB hkey rfl rfl rfl (fun h => ?_)⟩
      unfold BallotBoxes.HasMessageByString
      exact B.has_replace _ r1 h
  · have hnew : B.HasMessageByString c.1.MessageHash = false := by simpa using hkey
    obtain ⟨hR, hK, hW, hV⟩ := hB
    have hnone : firstState pre c.1.MessageHash = none := by
      cases hf : firstState pre c.1.MessageHash with
      | none => rfl
      | some s =>
        have := (hK c.1.MessageHash).2 (by rw [hf]; rfl)
        rw [hnew] at this
        exact Bool.noConfusion this
    have hat : firstState (pre ++ [c]) c.1.MessageHash = some c.1.State := by
      rw [firstState_snoc_of_none pre c _ hnone, if_pos rfl]
    have hother : ∀ h, h ≠ c.1.MessageHash →
        firstState (pre ++ [c]) h = firstState pre h := by
      intro h hne
      cases hf : firstState pre h with
      | some s =>
        rw [← hf]
        exact firstState_snoc_of_some pre c h (by rw [hf]; rfl)
      | none =>
        rw [firstState_snoc_of_none pre c h hf, if_neg (fun e => hne e.symm)]
    refine ⟨_, B.AddBallot_new c.1 c.2 hnew, ?_⟩
    have hKnew : ∀ (box : BoxRef) (h : String),
        (B.AddVotingResult
          { ID := c.2
            MessageHash := c.1.MessageHash
            State := c.1.State
            Voted := (∅ : AList (fun _ : BallotState => Votes)).insert c.1.State
              ((∅ : Votes).insert c.1.B.NodeKey c.1.B.VotingHole) } box).1.HasMessageByString h
          = true ↔ (firstState (pre ++ [c]) h).isSome = true := by
      intro box h
      rw [BallotBoxes.has_AddVotingResult]
      by_cases hh : h = c.1.MessageHash
      · subst hh
        rw [hat]
        simp
      · rw [hother h hh, ← hK h]
        simp [hh]
    by_cases hs : c.1.State = .INIT
    · rw [if_pos hs]
      refine ⟨hR, hKnew _, fun h => ?_, fun h => ?_⟩
      · show h ∈ (B.WaitingBox.AddVotingResult _).1.Hashes ↔ _
        rw [BallotBox.mem_add]
        by_cases hh : h = c.1.MessageHash
        · subst hh
          rw [hat, hs]
          simp
        · rw [hother h hh, ← hW h]
          simp [hh]
      · show h ∈ B.VotingBox.Hashes ↔ _
        by_cases hh : h = c.1.MessageHash
        · subst hh
          rw [hat, hV, hnone, hs]
          simp
        · rw [hother h hh]
          exact hV h
    · rw [if_neg hs]
      refine ⟨hR, hKnew _, fun h => ?_, fun h => ?_⟩
      · show h ∈ B.WaitingBox.Hashes ↔ _
        by_cases hh : h = c.1.MessageHash
        · subst hh
          rw [hat, hW, hnone]
          simp [hs]
        · rw [hother h hh]
          exact hW h
      · show h ∈ (B.VotingBox.AddVotingResult _).1.Hashes ↔ _
        rw [BallotBox.mem_add]
        by_cases hh : h = c.1.MessageHash
        · subst hh
          rw [hat]
          simp [hs]
        · rw [hother h hh, ← hV h]
          simp [hh]

theorem BallotBoxes.routed_AddBallots :
    ∀ (cs : List (Ballot × String)) (B : BallotBoxes) (pre : List (Ballot × String)),
      B.Routed pre → ∃ B1, B.AddBallots cs = some B1 ∧ B1.Routed (pre ++ cs)
  | [], B, pre, hB => ⟨B, rfl, by rw [List.append_nil]; exact hB⟩
  | c :: cs, B, pre, hB => by
    obtain ⟨r, hadd, hr⟩ := B.routed_step pre c hB
    obtain ⟨B1, hrun, hB1⟩ := BallotBoxes.routed_AddBallots cs r.1 (pre ++ [c]) hr
    refine ⟨B1, ?_, ?_⟩
    · show (match B.AddBallot c.1 c.2 with
        | none => none
        | some r => r.1.AddBallots cs) = some B1
      rw [hadd]
      exact hrun
    · rw [List.append_assoc] at hB1
      exact hB1

theorem NewBallotBoxes_routed : NewBallotBoxes.Routed [] := by
  refine ⟨rfl, fun h => ?_, fun h => ?_, fun h => ?_⟩
  · simp [NewBallotBoxes, BallotBoxes.HasMessageByString, firstState, AList.lookup_empty]
  · simp [NewBallotBoxes, NewBallotBox, firstState]
  · simp [NewBallotBoxes, NewBallotBox, firstState]

/-- C26: every run of `AddBallot` calls from `NewBallotBoxes` returns, and in the state it
reaches `ReservedBox` is empty, every key of `Results` is in exactly one of `WaitingBox` and
`VotingBox`, and that box is `WaitingBox` exactly when the first ballot seen for the hash had
state INIT.  After an INIT ballot for "h1", a SIGN ballot for "h2" and a SIGN ballot for
"h1", "h1" waits and "h2" is voted on. -/
theorem AddBallot_alone_routes (calls : List (Ballot × String)) :
    (∃ B, NewBallotBoxes.AddBallots calls = some B ∧
      B.ReservedBox.Hashes = [] ∧
      ∀ h, B.HasMessageByString h = true →
        ((h ∈ B.WaitingBox.Hashes ∧ h ∉ B.VotingBox.Hashes) ∨
          (h ∉ B.WaitingBox.Hashes ∧ h ∈ B.VotingBox.Hashes)) ∧
        (h ∈ B.WaitingBox.Hashes ↔ firstState calls h = some .INIT)) ∧
    (NewBallotBoxes.AddBallots threeCalls).map
        (fun B => (B.WaitingBox.Hashes, B.VotingBox.Hashes, B.ReservedBox.Hashes)) =
      some (["h1"], ["h2"], []) := by
  refine ⟨?_, rfl⟩
  obtain ⟨B, hrun, hR, hK, hW, hV⟩ :=
    BallotBoxes.routed_AddBallots calls NewBallotBoxes [] NewBallotBoxes_routed
  rw [List.nil_append] at hK hW hV
  refine ⟨B, hrun, hR, fun h hh => ⟨?_, hW h⟩⟩
  have hsome := (hK h).1 hh
  cases hf : firstState calls h with
  | none => rw [hf] at hsome; simp at hsome
  | some s =>
    by_cases hs : s = .INIT
    · left
      refine ⟨(hW h).2 (by rw [hf, hs]), fun hc => ?_⟩
      obtain ⟨s1, h1, h2⟩ := (hV h).1 hc
      rw [hf] at h1
      simp only [Option.some.injEq] at h1
      exact h2 (h1 ▸ hs)
    · right
      refine ⟨fun hc => ?_, (hV h).2 ⟨s, hf, hs⟩⟩
      have := (hW h).1 hc
      rw [hf] at this
      simp only [Option.some.injEq] at this
      exact hs this

end Sebak
